import Mathlib

/-!
# pandas (C++ `Series` / `DataFrame`): a shallow embedding

Source files embedded: `series.h` (class `Series<T>` behind the type-erased
handle `series`) and `frame.h` (class `DataFrame`).

Conventions of the embedding

* A `std::vector<T>` is a `List`; a `series` handle is a value of `Series R`,
  which records the runtime element type of the `Series<T>` it points to.
* Values of an integral element type are carried as `Int` (exact integers);
  a `double` is carried as `Option R` for an ordered field `R`: `some x` is the
  exact real number `x`, and `none` is a value that is not a real number: NaN in
  an input, and in a result what IEEE arithmetic reports for a quotient by zero
  or for an operation on such a value. No rounding is modelled.
* Operations return `Except Fault _`: the C++ either returns, or it stops in one
  of the ways listed in `Fault`.
* Arithmetic in an integral type `T` gives the exact result when `T` can hold
  it; otherwise `std::size_t` arithmetic is taken modulo `2 ^ 64`, and a signed
  overflow (undefined behaviour) is given its two's-complement result in a sum
  or a difference and is a fault in a quotient. Theorems about such results
  carry the hypothesis that `T` holds them.
* The function template `resample` is embedded at its integral instantiations
  (`main.cc` uses `long`); `loc` and `filter` are embedded at the integral
  instantiations and at `double`.
* An algorithm called with the execution policy `std::execution::par_unseq` is
  embedded by its sequential meaning (the elementwise result in input order).
* A loop that the source does not bound takes a fuel argument and reports
  `Fault.fuel` when the fuel runs out before the loop ends.
-/

namespace pandas

/-! ## Data model -/

/-- Ways in which a call can fail to return a value. -/
inductive Fault where
  /-- an `assert(...)` did not hold (the program aborts) -/
  | assertion
  /-- an element access or iterator read past the end of a vector -/
  | out_of_range
  /-- use of the null result of a `std::dynamic_pointer_cast` -/
  | null_pointer
  /-- `std::length_error` thrown by a `std::vector` size request -/
  | length_error
  /-- integral division by zero, or of the least value of a signed type by `-1` -/
  | division
  /-- the step budget of the model ran out while a loop was still running -/
  | fuel
  deriving DecidableEq

/-- Whether a fault is reported by the program (an `assert` that aborts, an
exception that is thrown), as opposed to undefined behaviour, which the program
does not detect. -/
def Fault.reported : Fault → Bool
  | .assertion => true
  | .length_error => true
  | _ => false

/-- Integral element types at which the program instantiates `Series<T>`. -/
inductive IntType where
  | size_t
  | int
  | long
  deriving DecidableEq

/-- What a `series` handle points to: a `Series<T>` with its private member
`values`, for an integral `T` or for `T = double`. -/
inductive Series (R : Type) where
  | integral (T : IntType) (values : List Int)
  | floating (values : List (Option R))
  deriving DecidableEq

/-- One element of a series, tagged with its element type. -/
inductive Value (R : Type) where
  | integral (T : IntType) (v : Int)
  | floating (v : Option R)
  deriving DecidableEq

/-- The class `DataFrame` with its three private members. -/
structure DataFrame (R : Type) where
  values : List (Series R)
  index : Series R
  columns : List String
  deriving DecidableEq

variable {R : Type}

/-- `Series<T>::size()`. -/
def Series.size : Series R → Nat
  | .integral _ values => values.length
  | .floating values => values.length

/-- Element `i` of a series (`values[i]`), when `i` is in range. -/
def Series.value_at : Series R → Nat → Option (Value R)
  | .integral T values, i => (values[i]?).map (Value.integral T)
  | .floating values, i => (values[i]?).map Value.floating

/-- `std::dynamic_pointer_cast<Series<T>>(s)` for an integral `T`, followed by
access to `values`: `none` is the null pointer. -/
def Series.dynamic_pointer_cast (T : IntType) : Series R → Option (List Int)
  | .integral T' values => if T' = T then some values else none
  | .floating _ => none

/-- Conversion of an integer to `std::size_t`. -/
def to_size_t (z : Int) : Nat := (z % 2 ^ 64).toNat

/-- The least value of the integral type `T` (`int` has 32 bits, `long` and
`std::size_t` have 64). -/
def IntType.min : IntType → Int
  | .size_t => 0
  | .int => -2 ^ 31
  | .long => -2 ^ 63

/-- The greatest value of the integral type `T`. -/
def IntType.max : IntType → Int
  | .size_t => 2 ^ 64 - 1
  | .int => 2 ^ 31 - 1
  | .long => 2 ^ 63 - 1

/-- The integral type `T` can hold the value `z`. -/
def IntType.holds (T : IntType) (z : Int) : Prop := T.min ≤ z ∧ z ≤ T.max

instance (T : IntType) (z : Int) : Decidable (T.holds z) :=
  inferInstanceAs (Decidable (T.min ≤ z ∧ z ≤ T.max))

/-- The quotient `u / v` cannot be formed in `T`: `v` is zero, or `T` is signed,
`u` is its least value and `v` is `-1`, so that the quotient overflows. Both are
undefined behaviour and raise the division error of the processor. -/
def IntType.div_faults (T : IntType) (u v : Int) : Prop :=
  v = 0 ∨ (T ≠ .size_t ∧ u = T.min ∧ v = -1)

instance (T : IntType) (u v : Int) : Decidable (T.div_faults u v) :=
  inferInstanceAs (Decidable (v = 0 ∨ (T ≠ .size_t ∧ u = T.min ∧ v = -1)))

/-- `sizeof(T)` in bytes. -/
def IntType.sizeof : IntType → Nat
  | .size_t => 8
  | .int => 4
  | .long => 8

/-- The result of an arithmetic operation of the integral type `T`, given its
exact value `z`: the value itself when `T` can hold it; otherwise unsigned
arithmetic wraps modulo `2 ^ 64`, and for a signed overflow, which is undefined
behaviour, the two's-complement result is taken. -/
def IntType.wrap : IntType → Int → Int
  | .size_t, z => to_size_t z
  | .int, z => (z + 2 ^ 31) % 2 ^ 32 - 2 ^ 31
  | .long, z => (z + 2 ^ 63) % 2 ^ 64 - 2 ^ 63

/-- `max_size()` of a `std::vector` whose elements have `sizeof` bytes:
`PTRDIFF_MAX / sizeof`. A size request above it is refused with
`std::length_error`; storage limits below it are not modelled. -/
def vector_max_size (sizeof : Nat) : Nat := (2 ^ 63 - 1) / sizeof

/-! ## `series.h`: selection -/

/-- The loop of `Series<T>::iloc(const std::vector<std::size_t>&)`:
`for (const auto &i : is) data.push_back(values[i]);`. -/
def iloc_loop {α : Type} (values : List α) : List Nat → Except Fault (List α)
  | [] => .ok []
  | i :: is =>
    match values[i]? with
    | none => .error .out_of_range
    | some v =>
      match iloc_loop values is with
      | .ok data => .ok (v :: data)
      | .error e => .error e

/-- `Series<T>::iloc(const std::vector<std::size_t>&)`. -/
def Series.iloc : Series R → List Nat → Except Fault (Series R)
  | .integral T values, is => (iloc_loop values is).map (Series.integral T)
  | .floating values, is => (iloc_loop values is).map Series.floating

/-- The loop of `Series<T>::iloc(const std::vector<bool>&)`: the iterators `iti`
over the mask and `itv` over `values` advance together until `iti` reaches the
end of the mask. -/
def iloc_bool_loop {α : Type} : List Bool → List α → Except Fault (List α)
  | [], _ => .ok []
  | _ :: _, [] => .error .out_of_range
  | b :: ib, v :: values =>
    match iloc_bool_loop ib values with
    | .ok data => .ok (if b then v :: data else data)
    | .error e => .error e

/-- Body of `Series<T>::iloc(const std::vector<bool>&)` on the member `values`:
the `assert` on the two sizes, then the loop. (The `reserve` of the number of
true entries asks for at most `size(ib)` elements.) -/
def iloc_bool_values {α : Type} (values : List α) (ib : List Bool) : Except Fault (List α) :=
  if ib.length = values.length then iloc_bool_loop ib values else .error .assertion

/-- `Series<T>::iloc(const std::vector<bool>&)`. -/
def Series.iloc_bool : Series R → List Bool → Except Fault (Series R)
  | .integral T values, ib => (iloc_bool_values values ib).map (Series.integral T)
  | .floating values, ib => (iloc_bool_values values ib).map Series.floating

/-! ## `series.h`: arithmetic on `double`

A `double` is `some x` (the real number `x`) or `none` (not a real number). -/

section arithmetic

variable [LinearOrderedField R]

/-- Sum of two doubles. -/
def dadd : Option R → Option R → Option R
  | some a, some b => some (a + b)
  | _, _ => none

/-- Difference of two doubles. -/
def dsub : Option R → Option R → Option R
  | some a, some b => some (a - b)
  | _, _ => none

/-- Product of two doubles. -/
def dmul : Option R → Option R → Option R
  | some a, some b => some (a * b)
  | _, _ => none

/-- Quotient of two doubles; a quotient by zero is not a real number. -/
def ddiv : Option R → Option R → Option R
  | some a, some b => if b = 0 then none else some (a / b)
  | _, _ => none

/-- The `sqrt` of `<cmath>` on a double, given the square-root function `sqrt` on
the non-negative reals; the root of a negative number is not a real number. -/
def dsqrt (sqrt : R → R) : Option R → Option R
  | some a => if a < 0 then none else some (sqrt a)
  | none => none

/-- The elements of a series converted to `double`. -/
def Series.to_double : Series R → List (Option R)
  | .integral _ values => values.map fun v => some (v : R)
  | .floating values => values

/-- `std::size(values) - 1` in `std::size_t`, then converted to `double`. -/
def size_minus_one (n : Nat) : Option R := some ((to_size_t ((n : Int) - 1) : Nat) : R)

/-- `std::reduce(first, last, 0.)`: the sum of a range of doubles. -/
def reduce (l : List (Option R)) : Option R := l.foldl dadd (some 0)

/-- `std::transform_reduce(first1, last1, first2, 0.0)` on two ranges of which
the second is at least as long as the first: the sum of the products. -/
def transform_reduce (l1 l2 : List (Option R)) : Option R :=
  reduce (List.zipWith dmul l1 l2)

/-- `Series<T>::mean`. -/
def Series.mean (s : Series R) : Option R :=
  ddiv (reduce s.to_double) (some (s.size : R))

/-- `Series<T>::centerize`. -/
def Series.centerize (st : Series R) : List (Option R) :=
  st.to_double.map fun v => dsub v st.mean

/-- `Series<T>::var`. -/
def Series.var (s : Series R) : Option R :=
  ddiv (transform_reduce s.centerize s.centerize) (size_minus_one s.size)

/-- Whether two handles point to series of one element type, so that the
`std::dynamic_pointer_cast<Series<T>>` of the second inside a member function of
the first is not null. -/
def Series.same_type : Series R → Series R → Bool
  | .integral T _, .integral T' _ => decide (T = T')
  | .floating _, .floating _ => true
  | _, _ => false

/-- `Series<T>::cov`: the cast of the argument, the two centred ranges (the second
is read over the length of the first), the reduction and the division. -/
def Series.cov (s t : Series R) : Except Fault (Option R) :=
  if s.same_type t = false then .error .null_pointer
  else if t.size < s.size then .error .out_of_range
  else .ok (ddiv (transform_reduce s.centerize t.centerize) (size_minus_one s.size))

/-- `Series<T>::std`. -/
def Series.std (sqrt : R → R) (s : Series R) : Option R := dsqrt sqrt s.var

/-- `Series<T>::corr`: `cov(s) / (std() * s->std())`. -/
def Series.corr (sqrt : R → R) (s t : Series R) : Except Fault (Option R) :=
  match s.cov t with
  | .error e => .error e
  | .ok c => .ok (ddiv c (dmul (s.std sqrt) (t.std sqrt)))

/-- The lambda `u / v - 1` of `Series<T>::pct_change` evaluated in an integral
`T`: the quotient is truncated towards zero. -/
def pct_change_op (T : IntType) (u v : Int) : Int := T.wrap (u.tdiv v - 1)

/-- The `std::transform` of `Series<T>::pct_change` for an integral `T`: the
lambda is applied to `u = values[i + 1]`, `v = values[i]`, and its result is
stored as `double`. -/
def pct_change_integral (T : IntType) : List Int → Except Fault (List (Option R))
  | v :: u :: values =>
    if T.div_faults u v then .error .division
    else
      match pct_change_integral T (u :: values) with
      | .ok data => .ok (some ((pct_change_op T u v : Int) : R) :: data)
      | .error e => .error e
  | _ => .ok []

/-- The `std::transform` of `Series<T>::pct_change` for `T = double`. -/
def pct_change_floating : List (Option R) → List (Option R)
  | v :: u :: values => dsub (ddiv u v) (some 1) :: pct_change_floating (u :: values)
  | _ => []

/-- `Series<T>::pct_change`: `std::vector<double> data(std::size(values) - 1)`
(the size is computed in `std::size_t`), then the transform. -/
def Series.pct_change (s : Series R) : Except Fault (Series R) :=
  if vector_max_size 8 < to_size_t ((s.size : Int) - 1) then .error .length_error
  else
    match s with
    | .integral T values => (pct_change_integral T values).map Series.floating
    | .floating values => .ok (.floating (pct_change_floating values))

/-- `Series<T>::plus`: the `assert` on the two sizes, the cast of the argument
(whose null result is dereferenced by `t->values`), and the elementwise sum
`u + v` evaluated in `T`. -/
def Series.plus (s t : Series R) : Except Fault (Series R) :=
  if s.size ≠ t.size then .error .assertion
  else
    match s, t with
    | .integral T values, .integral T' values' =>
      if T = T' then .ok (.integral T (List.zipWith (fun u v => T.wrap (u + v)) values values'))
      else .error .null_pointer
    | .floating values, .floating values' => .ok (.floating (List.zipWith dadd values values'))
    | _, _ => .error .null_pointer

/-- The free function `operator+` on two handles: `s->plus(t)`. -/
def operator_plus (s t : Series R) : Except Fault (Series R) := s.plus t

end arithmetic

/-! ## `frame.h`: selection -/

/-- The loop shared by the `DataFrame` member functions that rebuild every
column: `for (auto [itv, itr] = ...; itv != std::end(values); ++itv, ++itr)
*itr = f(*itv);` over the columns of the frame and of its copy. -/
def for_each_column (f : Series R → Except Fault (Series R)) :
    List (Series R) → Except Fault (List (Series R))
  | [] => .ok []
  | s :: values =>
    match f s with
    | .error e => .error e
    | .ok r =>
      match for_each_column f values with
      | .error e => .error e
      | .ok rs => .ok (r :: rs)

/-- `DataFrame::iloc(const std::vector<std::size_t>&)`: copy the frame, replace
the index, then every column in order. -/
def DataFrame.iloc (df : DataFrame R) (is : List Nat) : Except Fault (DataFrame R) :=
  match df.index.iloc is with
  | .error e => .error e
  | .ok index =>
    match for_each_column (fun s => s.iloc is) df.values with
    | .error e => .error e
    | .ok values => .ok { values := values, index := index, columns := df.columns }

/-- `DataFrame::iloc(const std::vector<bool>&)`. -/
def DataFrame.iloc_bool (df : DataFrame R) (ib : List Bool) : Except Fault (DataFrame R) :=
  match df.index.iloc_bool ib with
  | .error e => .error e
  | .ok index =>
    match for_each_column (fun s => s.iloc_bool ib) df.values with
    | .error e => .error e
    | .ok values => .ok { values := values, index := index, columns := df.columns }

/-- The comparison `a <= b` of two doubles; it is false when either is not a
real number. -/
def dle [LinearOrderedField R] : Option R → Option R → Bool
  | some a, some b => decide (a ≤ b)
  | _, _ => false

/-- The comparison `a < b` of two doubles; it is false when either is not a real
number. -/
def dlt [LinearOrderedField R] : Option R → Option R → Bool
  | some a, some b => decide (a < b)
  | _, _ => false

/-- `DataFrame::loc<double>(start, stop)`. -/
def DataFrame.loc_double [LinearOrderedField R] (start stop : Option R) (df : DataFrame R) :
    Except Fault (DataFrame R) :=
  match df.index with
  | .integral _ _ => .error .null_pointer
  | .floating index_t => df.iloc_bool (index_t.map fun i => dle start i && dlt i stop)

/-- `DataFrame::loc<T>(start, stop)` for an integral `T`: the mask
`start <= i && i < stop` over the index, handed to `iloc`. -/
def DataFrame.loc (T : IntType) (start stop : Int) (df : DataFrame R) :
    Except Fault (DataFrame R) :=
  match df.index.dynamic_pointer_cast T with
  | none => .error .null_pointer
  | some index_t =>
    df.iloc_bool (index_t.map fun i => decide (start ≤ i) && decide (i < stop))

/-- `DataFrame::find_column_index`: the distance from `begin(columns)` to the
result of `std::find`, which is `size(columns)` when the name does not occur. -/
def DataFrame.find_column_index (df : DataFrame R) (col : String) : Nat :=
  df.columns.indexOf col

/-- `DataFrame::filter<T>(col, val)` for an integral `T`: the column at
`find_column_index(col)`, its cast to `Series<T>`, the mask `v == val` over its
values, handed to `iloc`. -/
def DataFrame.filter (T : IntType) (col : String) (val : Int) (df : DataFrame R) :
    Except Fault (DataFrame R) :=
  match df.values[df.find_column_index col]? with
  | none => .error .out_of_range
  | some c =>
    match c.dynamic_pointer_cast T with
    | none => .error .null_pointer
    | some values => df.iloc_bool (values.map fun v => decide (v = val))

/-- The comparison `a == b` of two doubles; it is false when either is not a
real number. -/
def deq [LinearOrderedField R] : Option R → Option R → Bool
  | some a, some b => decide (a = b)
  | _, _ => false

/-- `DataFrame::filter<double>(col, val)`. -/
def DataFrame.filter_double [LinearOrderedField R] (col : String) (val : Option R)
    (df : DataFrame R) : Except Fault (DataFrame R) :=
  match df.values[df.find_column_index col]? with
  | none => .error .out_of_range
  | some (.integral _ _) => .error .null_pointer
  | some (.floating values) => df.iloc_bool (values.map fun v => deq v val)

/-! ## `frame.h`: resampling -/

/-- First loop of `DataFrame::resample`:
`for (auto t = start + delta; t <= stop; t += delta) index_t.push_back(t);`,
entered with the current `t`. One unit of fuel is spent per test of the
condition. -/
def resample_grid_loop (T : IntType) (stop delta : Int) : Nat → Int → Except Fault (List Int)
  | 0, _ => .error .fuel
  | fuel + 1, t =>
    if t ≤ stop then
      match resample_grid_loop T stop delta fuel (T.wrap (t + delta)) with
      | .ok index_t => .ok (t :: index_t)
      | .error e => .error e
    else .ok []

/-- Second loop of `DataFrame::resample`, over the state `(i, j, k, index_s)`:
```
for (i = 0, j = 0, k = 0; i < index_->size() && j < size(index_t) && k < size(index_s); ) {
    if (index_->values[i] <= index_t[j]) { index_s[k] = i; ++i; } else { ++j; ++k; }
}
```
One unit of fuel is spent per execution of the body. -/
def resample_merge_loop (index_ index_t : List Int) :
    Nat → Nat → Nat → Nat → List Nat → Except Fault (List Nat)
  | fuel, i, j, k, index_s =>
    if i < index_.length ∧ j < index_t.length ∧ k < index_s.length then
      match fuel with
      | 0 => .error .fuel
      | fuel + 1 =>
        match index_[i]?, index_t[j]? with
        | some a, some b =>
          if a ≤ b then
            resample_merge_loop index_ index_t fuel (i + 1) j k (index_s.set k i)
          else
            resample_merge_loop index_ index_t fuel i (j + 1) (k + 1) index_s
        | _, _ => .error .out_of_range
    else .ok index_s

/-- `DataFrame::resample<T>(start, stop, delta)` for an integral `T`, statement by
statement: the capacity request `index_t.reserve((stop - start) / delta)` (the
difference and the quotient, truncated towards zero, are taken in `T`, and the
quotient is converted to `std::size_t` and compared with `max_size()` of a
vector of `T`), the grid loop, the zero-filled `index_s`, the merge loop,
`iloc(index_s)`, and the replacement of the index by the grid. -/
def DataFrame.resample (fuel : Nat) (T : IntType) (start stop delta : Int)
    (df : DataFrame R) : Except Fault (DataFrame R) :=
  if T.div_faults (T.wrap (stop - start)) delta then .error .division
  else if vector_max_size T.sizeof < to_size_t ((T.wrap (stop - start)).tdiv delta) then
    .error .length_error
  else
    match resample_grid_loop T stop delta fuel (T.wrap (start + delta)) with
    | .error e => .error e
    | .ok index_t =>
      match df.index.dynamic_pointer_cast T with
      | none => .error .null_pointer
      | some index_ =>
        match resample_merge_loop index_ index_t fuel 0 0 0
            (List.replicate index_t.length 0) with
        | .error e => .error e
        | .ok index_s =>
          match df.iloc index_s with
          | .error e => .error e
          | .ok out => .ok { out with index := Series.integral T index_t }

/-! ## `frame.h`: columns by name -/

/-- `DataFrame::operator[](const std::string&)`:
`values[find_column_index(col)]`. -/
def DataFrame.subscript (df : DataFrame R) (col : String) : Except Fault (Series R) :=
  match df.values[df.find_column_index col]? with
  | some s => .ok s
  | none => .error .out_of_range

/-- The loop of `DataFrame::operator[](std::vector<std::string>&&)`:
`for (const auto &col : cols) data.push_back(values[find_column_index(col)]);`. -/
def subscript_loop (df : DataFrame R) : List String → Except Fault (List (Series R))
  | [] => .ok []
  | col :: cols =>
    match df.values[df.find_column_index col]? with
    | none => .error .out_of_range
    | some s =>
      match subscript_loop df cols with
      | .ok data => .ok (s :: data)
      | .error e => .error e

/-- `DataFrame::operator[](std::vector<std::string>&&)`: the frame built from the
collected columns and the given names, whose index is then set to this frame's
index. -/
def DataFrame.subscript_list (df : DataFrame R) (cols : List String) :
    Except Fault (DataFrame R) :=
  match subscript_loop df cols with
  | .error e => .error e
  | .ok data => .ok { values := data, index := df.index, columns := cols }

/-- Inner loop of `DataFrame::corr`, for the column named `u`:
`for (const auto v : columns) col.push_back((*this)[u]->corr((*this)[v]));`. -/
def corr_inner_loop [LinearOrderedField R] (sqrt : R → R) (df : DataFrame R) (u : String) :
    List String → Except Fault (List (Option R))
  | [] => .ok []
  | v :: columns =>
    match df.subscript u with
    | .error e => .error e
    | .ok su =>
      match df.subscript v with
      | .error e => .error e
      | .ok sv =>
        match su.corr sqrt sv with
        | .error e => .error e
        | .ok c =>
          match corr_inner_loop sqrt df u columns with
          | .error e => .error e
          | .ok col => .ok (c :: col)

/-- Outer loop of `DataFrame::corr`: one `double` series per column name `u`. -/
def corr_outer_loop [LinearOrderedField R] (sqrt : R → R) (df : DataFrame R) :
    List String → Except Fault (List (Series R))
  | [] => .ok []
  | u :: columns =>
    match corr_inner_loop sqrt df u df.columns with
    | .error e => .error e
    | .ok col =>
      match corr_outer_loop sqrt df columns with
      | .error e => .error e
      | .ok data => .ok (.floating col :: data)

/-- `DataFrame::corr`: the frame built by the constructor from the collected
series and a copy of `columns`, with the constructor's default index
`make_series<std::size_t>({})`. -/
def DataFrame.corr [LinearOrderedField R] (sqrt : R → R) (df : DataFrame R) :
    Except Fault (DataFrame R) :=
  match corr_outer_loop sqrt df df.columns with
  | .error e => .error e
  | .ok data => .ok { values := data, index := .integral .size_t [], columns := df.columns }

/-- `DataFrame::pct_change`: every column is replaced, the index is kept. -/
def DataFrame.pct_change [LinearOrderedField R] (df : DataFrame R) : Except Fault (DataFrame R) :=
  match for_each_column (fun s => s.pct_change) df.values with
  | .error e => .error e
  | .ok values => .ok { df with values := values }

/-- `DataFrame::set_index(const series&)`. -/
def DataFrame.set_index (df : DataFrame R) (idx : Series R) : DataFrame R :=
  { df with index := idx }

/-- `DataFrame::set_index(const std::string&)`: the frame after the call.
`values[i]` needs `i < size(values)`, and `columns.erase(begin(columns) + i)`
needs `i < size(columns)`. -/
def DataFrame.set_index_col (df : DataFrame R) (col : String) : Except Fault (DataFrame R) :=
  let i := df.find_column_index col
  match df.values[i]? with
  | none => .error .out_of_range
  | some s =>
    let df1 := df.set_index s
    if i < df1.columns.length then
      .ok { df1 with values := df1.values.eraseIdx i, columns := df1.columns.eraseIdx i }
    else .error .out_of_range

/-! ## Example frames -/

/-- The example scenario of the specification: index `[0, 1, 2, 3]` and one
column `price = [10, 11, 9, 12]`. -/
def price_frame : DataFrame ℚ :=
  ⟨[.integral .int [10, 11, 9, 12]], .integral .long [0, 1, 2, 3], ["price"]⟩

/-- A frame of two rows with three columns `a`, `b`, `c`. -/
def abc_frame : DataFrame ℚ :=
  ⟨[.integral .int [1, 2], .integral .int [3, 4], .integral .long [5, 6]],
    .integral .size_t [0, 1], ["a", "b", "c"]⟩

/-- A frame of three rows with two `int` columns `x`, `y`. -/
def xy_frame : DataFrame ℚ :=
  ⟨[.integral .int [1, 2, 3], .integral .int [2, 4, 7]], .integral .size_t [0, 1, 2],
    ["x", "y"]⟩

/-- A frame whose index `[1, 2, 7]` has a gap between its last two values. -/
def gap_frame : DataFrame ℚ :=
  ⟨[.integral .int [10, 20, 70]], .integral .long [1, 2, 7], ["price"]⟩

/-- A frame of two rows whose `int` column starts with a zero. -/
def zero_frame : DataFrame ℚ :=
  ⟨[.integral .int [0, 5]], .integral .long [0, 1], ["a"]⟩

/-- A frame with an index and a column but no rows. -/
def empty_frame : DataFrame ℚ :=
  ⟨[.integral .int []], .integral .long [], ["price"]⟩

/-! ## Vocabulary of the statements -/

/-- The element at row `i` of the `j`-th column of a frame. -/
def DataFrame.cell (df : DataFrame R) (i j : Nat) : Option (Value R) :=
  (df.values[j]?).bind fun s => s.value_at i

/-- Row selection, observed from outside: `o` has one element per entry of `ps`,
and its `k`-th element is the element of `s` at position `ps[k]`. -/
def Series.is_rows_of (o s : Series R) (ps : List Nat) : Prop :=
  o.size = ps.length ∧ ∀ k (hk : k < ps.length), o.value_at k = s.value_at ps[k]

/-- The index and every column of the frame have `n` elements. -/
def DataFrame.has_rows (df : DataFrame R) (n : Nat) : Prop :=
  df.index.size = n ∧ ∀ s ∈ df.values, s.size = n

/-- A series is ascending: each element is `<=` every later one, by the
comparison of its element type. -/
def Series.ascending [LinearOrderedField R] : Series R → Prop
  | .integral _ values => values.Pairwise (· ≤ ·)
  | .floating values => values.Pairwise fun a b => dle a b = true

/-- Position `i` of the source index `index_` lies in the window of grid point
`j` of the grid `index_t`: `index_t[j - 1] < index_[i] <= index_t[j]`, without the
lower bound for `j = 0`. -/
def in_window (index_ index_t : List Int) (j i : Nat) : Prop :=
  i < index_.length ∧ index_.getD i 0 ≤ index_t.getD j 0 ∧
    (j = 0 ∨ index_t.getD (j - 1) 0 < index_.getD i 0)

/-- Position `p` is the last position in the window of grid point `j` when the
window holds a position, and `0` when it holds none. -/
def is_position_of (index_ index_t : List Int) (j p : Nat) : Prop :=
  ((∃ i, in_window index_ index_t j i) →
      in_window index_ index_t j p ∧ ∀ i, in_window index_ index_t j i → i ≤ p) ∧
    ((¬ ∃ i, in_window index_ index_t j i) → p = 0)

/-- The grid of `resample(start, stop, delta)` for `delta > 0`: the points
`start + k * delta` with `k ≥ 1` that do not exceed `stop`, in ascending order. -/
def resample_grid (start stop delta : Int) : List Int :=
  (List.range ((stop - start) / delta).toNat).map fun k : Nat => start + (k + 1) * delta

/-- The element type `T` holds every value that `resample(start, stop, delta)`
computes for `delta > 0`: the difference `stop - start` of the capacity request,
the first grid point `start + delta`, and every value that `t += delta` takes,
which are the grid points and the first value above `stop`, where the loop
ends. -/
def resample_fits (T : IntType) (start stop delta : Int) : Prop :=
  T.holds (stop - start) ∧
    ∀ k : Nat, k ≤ (resample_grid start stop delta).length → T.holds (start + (k + 1) * delta)

/-! ## Theorems -/

theorem getElem_opt_of_map_some {α : Type} (data values : List α) (ps : List Nat)
    (h : data.map some = ps.map (fun i => values[i]?)) :
    data.length = ps.length ∧ ∀ k (hk : k < ps.length), data[k]? = values[ps[k]]? := by
  have hl : data.length = ps.length := by simpa using congrArg List.length h
  refine ⟨hl, fun k hk => ?_⟩
  have hk' : k < data.length := hl ▸ hk
  have := congrArg (fun l => l[k]?) h
  simp only [List.getElem?_map, List.getElem?_eq_getElem hk, List.getElem?_eq_getElem hk',
    Option.map_some', Option.some.injEq] at this
  rw [List.getElem?_eq_getElem hk', this]

theorem is_rows_of_integral (T : IntType) (data values : List Int) (ps : List Nat)
    (h : data.map some = ps.map (fun i => values[i]?)) :
    (Series.integral T data : Series R).is_rows_of (Series.integral T values) ps := by
  obtain ⟨hl, hk⟩ := getElem_opt_of_map_some data values ps h
  exact ⟨hl, fun k hk' => by simp only [Series.value_at, hk k hk']⟩

theorem is_rows_of_floating (data values : List (Option R)) (ps : List Nat)
    (h : data.map some = ps.map (fun i => values[i]?)) :
    (Series.floating data : Series R).is_rows_of (Series.floating values) ps := by
  obtain ⟨hl, hk⟩ := getElem_opt_of_map_some data values ps h
  exact ⟨hl, fun k hk' => by simp only [Series.value_at, hk k hk']⟩

theorem for_each_column_ok {f : Series R → Except Fault (Series R)}
    {P : Series R → Series R → Prop} (l : List (Series R))
    (h : ∀ a ∈ l, ∃ b, f a = .ok b ∧ P a b) :
    ∃ bs, for_each_column f l = .ok bs ∧ List.Forall₂ P l bs := by
  induction l with
  | nil => exact ⟨[], rfl, List.Forall₂.nil⟩
  | cons a l ih =>
    obtain ⟨b, hb, hP⟩ := h a (List.mem_cons_self _ _)
    obtain ⟨bs, hbs, hF⟩ := ih (fun x hx => h x (List.mem_cons_of_mem _ hx))
    exact ⟨b :: bs, by simp [for_each_column, hb, hbs], List.Forall₂.cons hP hF⟩

theorem iloc_loop_eq {α : Type} (values : List α) (is : List Nat)
    (h : ∀ i ∈ is, i < values.length) :
    ∃ data, iloc_loop values is = .ok data ∧ data.map some = is.map (fun i => values[i]?) := by
  induction is with
  | nil => exact ⟨[], rfl, rfl⟩
  | cons i is ih =>
    obtain ⟨data, hd, hm⟩ := ih (fun x hx => h x (List.mem_cons_of_mem _ hx))
    have hi : i < values.length := h i (List.mem_cons_self _ _)
    refine ⟨values[i] :: data, ?_, ?_⟩
    · simp [iloc_loop, List.getElem?_eq_getElem hi, hd]
    · simp [List.getElem?_eq_getElem hi, hm]

theorem true_positions_cons (b : Bool) (ib : List Bool) :
    (List.range (b :: ib).length).filter (fun i => (b :: ib).getD i false)
      = (if b then [0] else []) ++
        ((List.range ib.length).filter (fun i => ib.getD i false)).map Nat.succ := by
  rw [List.length_cons, List.range_succ_eq_map, List.filter_cons, List.filter_map]
  cases b <;> simp [Function.comp_def]

theorem iloc_bool_loop_eq {α : Type} (ib : List Bool) (values : List α)
    (h : ib.length = values.length) :
    ∃ data, iloc_bool_loop ib values = .ok data ∧
      data.map some
        = ((List.range ib.length).filter (fun i => ib.getD i false)).map (fun i => values[i]?) := by
  induction ib generalizing values with
  | nil => exact ⟨[], rfl, rfl⟩
  | cons b ib ih =>
    cases values with
    | nil => simp at h
    | cons v values =>
      obtain ⟨data, hd, hm⟩ := ih values (by simpa using h)
      refine ⟨if b then v :: data else data, by simp [iloc_bool_loop, hd], ?_⟩
      rw [true_positions_cons]
      cases b <;> simp [hm, Function.comp_def]

theorem true_positions_length (ib : List Bool) :
    ((List.range ib.length).filter (fun i => ib.getD i false)).length = ib.count true := by
  induction ib with
  | nil => rfl
  | cons b ib ih =>
    rw [true_positions_cons]
    cases b <;> simpa using ih

theorem Series.iloc_ok (s : Series R) (is : List Nat) (h : ∀ i ∈ is, i < s.size) :
    ∃ o, s.iloc is = .ok o ∧ o.is_rows_of s is := by
  cases s with
  | integral T values =>
    obtain ⟨data, hd, hm⟩ := iloc_loop_eq values is h
    exact ⟨.integral T data, by simp [Series.iloc, hd, Except.map], is_rows_of_integral T _ _ _ hm⟩
  | floating values =>
    obtain ⟨data, hd, hm⟩ := iloc_loop_eq values is h
    exact ⟨.floating data, by simp [Series.iloc, hd, Except.map], is_rows_of_floating _ _ _ hm⟩

theorem Series.iloc_bool_ok (s : Series R) (ib : List Bool) (h : s.size = ib.length) :
    ∃ o, s.iloc_bool ib = .ok o ∧
      o.is_rows_of s ((List.range ib.length).filter (fun i => ib.getD i false)) := by
  cases s with
  | integral T values =>
    obtain ⟨data, hd, hm⟩ := iloc_bool_loop_eq ib values h.symm
    have h' : ib.length = values.length := h.symm
    exact ⟨.integral T data, by simp [Series.iloc_bool, iloc_bool_values, h', hd, Except.map],
      is_rows_of_integral T _ _ _ hm⟩
  | floating values =>
    obtain ⟨data, hd, hm⟩ := iloc_bool_loop_eq ib values h.symm
    have h' : ib.length = values.length := h.symm
    exact ⟨.floating data, by simp [Series.iloc_bool, iloc_bool_values, h', hd, Except.map],
      is_rows_of_floating _ _ _ hm⟩

/-- `DataFrame::iloc` on a mask of the length of the index and of every column:
the call returns, the names are kept, and the index and every column hold the
original elements at the positions where the mask is true. -/
theorem DataFrame.iloc_bool_rows (df : DataFrame R) (ib : List Bool)
    (hindex : df.index.size = ib.length) (hvalues : ∀ s ∈ df.values, s.size = ib.length) :
    ∃ out, df.iloc_bool ib = .ok out ∧ out.columns = df.columns ∧
      (out.index.size = ib.count true ∧
        out.index.is_rows_of df.index
          ((List.range ib.length).filter fun i => ib.getD i false)) ∧
      List.Forall₂
        (fun s o => o.size = ib.count true ∧
          o.is_rows_of s ((List.range ib.length).filter fun i => ib.getD i false))
        df.values out.values := by
  obtain ⟨index, hi, hri⟩ := Series.iloc_bool_ok df.index ib hindex
  obtain ⟨values, hv, hrv⟩ :=
    for_each_column_ok
      (P := fun s o => o.size = ib.count true ∧
          o.is_rows_of s ((List.range ib.length).filter fun i => ib.getD i false))
      (f := fun s => s.iloc_bool ib) df.values
      (fun s hs => by
        obtain ⟨o, ho, hr⟩ := Series.iloc_bool_ok s ib (hvalues s hs)
        exact ⟨o, ho, by rw [hr.1, true_positions_length], hr⟩)
  refine ⟨⟨values, index, df.columns⟩, by simp [DataFrame.iloc_bool, hi, hv], rfl, ?_, hrv⟩
  exact ⟨by rw [hri.1, true_positions_length], hri⟩

/-- `DataFrame::iloc` on a list of positions below the common length of the
index and the columns: the call returns, the names are kept, and the index and
every column hold the original elements at the given positions. -/
theorem DataFrame.iloc_rows (df : DataFrame R) (is : List Nat)
    (hpos : ∀ i ∈ is, i < df.index.size)
    (hvalues : ∀ s ∈ df.values, s.size = df.index.size) :
    ∃ out, df.iloc is = .ok out ∧ out.columns = df.columns ∧
      out.index.is_rows_of df.index is ∧
      List.Forall₂ (fun s o => o.is_rows_of s is) df.values out.values := by
  obtain ⟨index, hi, hri⟩ := Series.iloc_ok df.index is hpos
  obtain ⟨values, hv, hrv⟩ :=
    for_each_column_ok (P := fun s o => o.is_rows_of s is) (f := fun s => s.iloc is) df.values
      (fun s hs => Series.iloc_ok s is (fun i hi => (hvalues s hs) ▸ hpos i hi))
  exact ⟨⟨values, index, df.columns⟩, by simp [DataFrame.iloc, hi, hv], rfl, hri, hrv⟩

/-- C9 (select_by_positions / gather): when every position is below the row
count and every column has the index's length, `DataFrame::iloc` on the position
list (which applies `Series::iloc` on the list to the index and to every column)
returns; the column names are unchanged; the index and every column of the
result have one element per position, the `k`-th being the original element at
`positions[k]`. -/
theorem select_by_positions_rows (df : DataFrame R) (is : List Nat)
    (hpos : ∀ i ∈ is, i < df.index.size)
    (hvalues : ∀ s ∈ df.values, s.size = df.index.size) :
    ∃ out, df.iloc is = .ok out ∧ out.columns = df.columns ∧
      out.index.is_rows_of df.index is ∧
      List.Forall₂ (fun s o => o.is_rows_of s is) df.values out.values :=
  DataFrame.iloc_rows df is hpos hvalues

/-- Witness for C9: the positions `[2, 0, 2]` (with a repeat) on the example
frame. -/
theorem select_by_positions_rows_witness :
    price_frame.iloc [2, 0, 2]
        = .ok ⟨[.integral .int [9, 10, 9]], .integral .long [2, 0, 2], ["price"]⟩ ∧
      ∃ out, price_frame.iloc [2, 0, 2] = .ok out ∧ out.columns = price_frame.columns ∧
        out.index.is_rows_of price_frame.index [2, 0, 2] ∧
        List.Forall₂ (fun s o => o.is_rows_of s [2, 0, 2]) price_frame.values out.values :=
  ⟨rfl, select_by_positions_rows price_frame [2, 0, 2] (by decide) (by decide)⟩

/-- Arithmetic in `T` is exact on a result that `T` holds. -/
theorem wrap_of_holds (T : IntType) (z : Int) (h : T.holds z) : T.wrap z = z := by
  obtain ⟨hmin, hmax⟩ := h
  cases T
  · simp only [IntType.min, IntType.max] at hmin hmax
    simp only [IntType.wrap, to_size_t]
    omega
  · simp only [IntType.min, IntType.max] at hmin hmax
    simp only [IntType.wrap]
    omega
  · simp only [IntType.min, IntType.max] at hmin hmax
    simp only [IntType.wrap]
    omega

/-- No division by a positive divisor faults. -/
theorem not_div_faults_of_pos (T : IntType) (u v : Int) (hv : 0 < v) : ¬ T.div_faults u v := by
  rintro (h | ⟨_, _, h⟩) <;> omega

theorem vector_max_size_lt (sizeof : Nat) : (vector_max_size sizeof : Int) < 2 ^ 64 := by
  have h : vector_max_size sizeof ≤ 2 ^ 63 - 1 := Nat.div_le_self _ _
  have : ((2 ^ 63 - 1 : Nat) : Int) < 2 ^ 64 := by decide
  have h' : (vector_max_size sizeof : Int) ≤ ((2 ^ 63 - 1 : Nat) : Int) := by exact_mod_cast h
  omega

/-- The grid loop, started at `t` with `n` points left to produce, returns those
`n` points as soon as the fuel covers its `n + 1` tests of the condition, when
`T` holds each of the values `t + delta`, ..., `t + n * delta` that `t += delta`
computes. -/
theorem resample_grid_loop_eq (T : IntType) (stop delta : Int) (n : Nat) :
    ∀ (t : Int) (fuel : Nat), (∀ k : Nat, k < n → t + k * delta ≤ stop) →
      stop < t + n * delta → n < fuel →
      (∀ k : Nat, 1 ≤ k → k ≤ n → T.holds (t + k * delta)) →
      resample_grid_loop T stop delta fuel t
        = .ok ((List.range n).map fun k : Nat => t + k * delta) := by
  induction n with
  | zero =>
    intro t fuel _ h2 hf _
    obtain ⟨fuel, rfl⟩ : ∃ f, fuel = f + 1 := ⟨fuel - 1, by omega⟩
    have : ¬ t ≤ stop := by simpa using h2
    simp [resample_grid_loop, this]
  | succ n ih =>
    intro t fuel h1 h2 hf hfit
    obtain ⟨fuel, rfl⟩ : ∃ f, fuel = f + 1 := ⟨fuel - 1, by omega⟩
    have h0 : t ≤ stop := by simpa using h1 0 (Nat.succ_pos n)
    have hw : T.wrap (t + delta) = t + delta := by
      have := hfit 1 (le_refl _) (by omega)
      simp only [Nat.cast_one, one_mul] at this
      exact wrap_of_holds T _ this
    have ih' := ih (t + delta) fuel
      (fun k hk => by
        have := h1 (k + 1) (Nat.succ_lt_succ hk)
        push_cast at this
        linarith)
      (by push_cast at h2; linarith) (by omega)
      (fun k hk1 hkn => by
        have := hfit (k + 1) (by omega) (by omega)
        push_cast at this
        have e : t + delta + (k : Int) * delta = t + ((k : Int) + 1) * delta := by ring
        rw [e]; exact this)
    simp only [resample_grid_loop, h0, if_true, hw, ih']
    rw [List.range_succ_eq_map, List.map_cons, List.map_map]
    simp only [Nat.cast_zero, zero_mul, add_zero, Except.ok.injEq, List.cons.injEq, true_and]
    apply List.map_congr_left
    intro k _
    simp only [Function.comp_apply, Nat.succ_eq_add_one, Nat.cast_add, Nat.cast_one]
    ring

/-- The grid of `DataFrame::resample` for `delta > 0`, when `T` holds `start + delta`
and every value that `t += delta` computes: with enough fuel the grid loop
returns the points `start + (k + 1) * delta` for `k` below
`(stop - start) / delta` (rounded down, none when negative), in ascending
order. -/
theorem resample_grid_loop_spec (T : IntType) (start stop delta : Int)
    (hdelta : 0 < delta) (fuel : Nat) (hfuel : ((stop - start) / delta).toNat < fuel)
    (hfit : ∀ k : Nat, k ≤ ((stop - start) / delta).toNat →
      T.holds (start + (k + 1) * delta)) :
    resample_grid_loop T stop delta fuel (T.wrap (start + delta))
      = .ok ((List.range ((stop - start) / delta).toNat).map
          fun k : Nat => start + (k + 1) * delta) := by
  have key := resample_grid_loop_eq T stop delta ((stop - start) / delta).toNat
    (start + delta) fuel
  have hmul : ∀ q : Int, q * delta ≤ stop - start ↔ q ≤ (stop - start) / delta :=
    fun q => (Int.le_ediv_iff_mul_le hdelta).symm
  have hw : T.wrap (start + delta) = start + delta := by
    have := hfit 0 (Nat.zero_le _)
    simp only [Nat.cast_zero, zero_add, one_mul] at this
    exact wrap_of_holds T _ this
  rw [hw, key ?_ ?_ hfuel ?_]
  · congr 1
    apply List.map_congr_left
    intro k _
    ring
  · intro k hk
    have hk' : ((k : Int) + 1) ≤ (stop - start) / delta := by omega
    have := (hmul _).mpr hk'
    linarith
  · have hn : ¬ (((((stop - start) / delta).toNat : Int) + 1) ≤ (stop - start) / delta) := by omega
    by_contra hc
    exact hn ((hmul _).mp (by push_neg at hc; linarith))
  · intro k _ hkn
    have := hfit k hkn
    have e : start + delta + (k : Int) * delta = start + ((k : Int) + 1) * delta := by ring
    rw [e]; exact this

/-- The result of arithmetic in `T` is a value of `T`. -/
theorem wrap_holds (T : IntType) (z : Int) : T.holds (T.wrap z) := by
  cases T
  · simp only [IntType.holds, IntType.min, IntType.max, IntType.wrap, to_size_t]
    omega
  · simp only [IntType.holds, IntType.min, IntType.max, IntType.wrap]
    omega
  · simp only [IntType.holds, IntType.min, IntType.max, IntType.wrap]
    omega

/-- The grid loop of `DataFrame::resample` when `stop` is the greatest value of
`T`: every value of `t` passes the test `t <= stop`, so the loop does not end,
whatever the fuel. For `T = long`, `start = 0`, `delta = 2 ^ 62` this is reached
after the overflow of the second `t += delta`. -/
theorem resample_grid_loop_overflow (T : IntType) (delta : Int) :
    ∀ (fuel : Nat) (t : Int), T.holds t →
      resample_grid_loop T T.max delta fuel t = .error .fuel := by
  intro fuel
  induction fuel with
  | zero => intro t _; rfl
  | succ fuel ih =>
    intro t ht
    simp only [resample_grid_loop, if_pos ht.2, ih _ (wrap_holds T (t + delta))]

/-- The merge loop of `DataFrame::resample` returns once the fuel covers the
remaining `(size(index_) - i) + (size(index_t) - j)` executions of its body; it
keeps the length of `index_s`, and every position in its result is either an
entry of the initial `index_s` or a position of `index_`. -/
theorem resample_merge_loop_ok (index_ index_t : List Int) :
    ∀ (fuel i j k : Nat) (index_s : List Nat),
      (index_.length - i) + (index_t.length - j) ≤ fuel →
      ∃ s, resample_merge_loop index_ index_t fuel i j k index_s = .ok s ∧
        s.length = index_s.length ∧ ∀ x ∈ s, x ∈ index_s ∨ x < index_.length := by
  intro fuel
  induction fuel with
  | zero =>
    intro i j k index_s hf
    have hg : ¬ (i < index_.length ∧ j < index_t.length ∧ k < index_s.length) := by omega
    exact ⟨index_s, by unfold resample_merge_loop; simp [hg], rfl, fun x hx => Or.inl hx⟩
  | succ fuel ih =>
    intro i j k index_s hf
    by_cases hg : i < index_.length ∧ j < index_t.length ∧ k < index_s.length
    · obtain ⟨hi, hj, hk⟩ := hg
      by_cases hle : index_[i] ≤ index_t[j]
      · obtain ⟨s, hs, hl, hmem⟩ := ih (i + 1) j k (index_s.set k i) (by omega)
        refine ⟨s, ?_, by simpa using hl, fun x hx => ?_⟩
        · unfold resample_merge_loop
          simp [hi, hj, hk, List.getElem?_eq_getElem, hle, hs]
        · rcases hmem x hx with h | h
          · rcases List.mem_or_eq_of_mem_set h with h' | h'
            · exact Or.inl h'
            · exact Or.inr (h' ▸ hi)
          · exact Or.inr h
      · obtain ⟨s, hs, hl, hmem⟩ := ih i (j + 1) (k + 1) index_s (by omega)
        refine ⟨s, ?_, hl, hmem⟩
        unfold resample_merge_loop
        simp [hi, hj, hk, List.getElem?_eq_getElem, hle, hs]
    · exact ⟨index_s, by unfold resample_merge_loop; simp [hg], rfl, fun x hx => Or.inl hx⟩

/-- The capacity request of `DataFrame::resample` is accepted when `delta > 0`,
`T` holds `stop - start`, `start - delta < stop` and the number of grid points is
at most `max_size()`. -/
theorem resample_reserve_ok (T : IntType) (start stop delta : Int) (hdelta : 0 < delta)
    (hsub : T.holds (stop - start))
    (hlow : start - delta < stop)
    (hhigh : (stop - start) / delta ≤ vector_max_size T.sizeof) :
    ¬ vector_max_size T.sizeof < to_size_t ((T.wrap (stop - start)).tdiv delta) := by
  rw [wrap_of_holds T _ hsub]
  rcases le_or_lt 0 (stop - start) with h | h
  · have hq0 : 0 ≤ (stop - start) / delta := Int.ediv_nonneg h hdelta.le
    have hq : (stop - start) / delta < 2 ^ 64 := by
      have := vector_max_size_lt T.sizeof
      omega
    rw [Int.tdiv_eq_ediv h hdelta.le, to_size_t, Int.emod_eq_of_lt hq0 hq]
    omega
  · have h0 : (-(stop - start)).tdiv delta = 0 :=
      Int.tdiv_eq_zero_of_lt (by omega) (by omega)
    have : (stop - start).tdiv delta = 0 := by
      have := Int.neg_tdiv (-(stop - start)) delta
      rw [neg_neg, h0] at this
      simpa using this
    rw [this]
    simp [to_size_t]

/-- `DataFrame::resample` for `delta > 0` on a frame with at least one row whose
index has element type `T` and whose columns have the index's length, when `T`
holds `stop - start`, `start + delta` and every value that `t += delta` computes,
and the capacity request `(stop - start) / delta` is not negative and not above
`max_size()`: with enough fuel the call returns a frame with the same column
names whose index is the grid `start + delta, start + 2 * delta, ...` of all such
points up to `stop`. -/
theorem DataFrame.resample_index (T : IntType) (idx : List Int)
    (df : DataFrame R) (start stop delta : Int) (hindex : df.index = .integral T idx)
    (hvalues : ∀ s ∈ df.values, s.size = idx.length) (hrows : idx ≠ [])
    (hdelta : 0 < delta) (hsub : T.holds (stop - start))
    (hfit : ∀ k : Nat, k ≤ ((stop - start) / delta).toNat →
      T.holds (start + (k + 1) * delta))
    (hlow : start - delta < stop)
    (hhigh : (stop - start) / delta ≤ vector_max_size T.sizeof) (fuel : Nat)
    (hfuel : idx.length + ((stop - start) / delta).toNat < fuel) :
    ∃ out, df.resample fuel T start stop delta = .ok out ∧ out.columns = df.columns ∧
      out.index = .integral T
        ((List.range ((stop - start) / delta).toNat).map
          fun k : Nat => start + (k + 1) * delta) := by
  have hgrid := resample_grid_loop_spec T start stop delta hdelta fuel (by omega) hfit
  obtain ⟨s, hs, hl, hmem⟩ :=
    resample_merge_loop_ok idx
      ((List.range ((stop - start) / delta).toNat).map fun k : Nat => start + (k + 1) * delta)
      fuel 0 0 0
      (List.replicate ((List.range ((stop - start) / delta).toNat).map
        fun k : Nat => start + (k + 1) * delta).length 0)
      (by simp; omega)
  have hpos : 0 < idx.length := List.length_pos.mpr hrows
  obtain ⟨out, hout, hcols, _, _⟩ := DataFrame.iloc_rows df s
    (fun i hi => by
      rw [hindex]
      simp only [Series.size]
      rcases hmem i hi with h | h
      · rw [List.eq_of_mem_replicate h]; exact hpos
      · exact h)
    (fun c hc => by rw [hvalues c hc, hindex]; rfl)
  have hres := resample_reserve_ok T start stop delta hdelta hsub hlow hhigh
  refine ⟨{ out with index := .integral T _ }, ?_, hcols, rfl⟩
  unfold DataFrame.resample
  rw [if_neg (not_div_faults_of_pos T _ delta hdelta), if_neg hres, hgrid]
  simp only [hindex, Series.dynamic_pointer_cast, if_true, hs, hout]

/-- The grid of `DataFrame::resample` consists of exactly the values
`start + k * delta` with `k ≥ 1` that do not exceed `stop`, and it is strictly
ascending. -/
theorem resample_grid_mem (start stop delta : Int) (hdelta : 0 < delta) :
    (∀ z, z ∈ (List.range ((stop - start) / delta).toNat).map
          (fun k : Nat => start + (k + 1) * delta)
        ↔ ∃ k : Nat, 1 ≤ k ∧ z = start + k * delta ∧ z ≤ stop) ∧
      List.Pairwise (· < ·)
        ((List.range ((stop - start) / delta).toNat).map
          fun k : Nat => start + (k + 1) * delta) := by
  have hmul : ∀ q : Int, q * delta ≤ stop - start ↔ q ≤ (stop - start) / delta :=
    fun q => (Int.le_ediv_iff_mul_le hdelta).symm
  constructor
  · intro z
    simp only [List.mem_map, List.mem_range]
    constructor
    · rintro ⟨k, hk, rfl⟩
      refine ⟨k + 1, by omega, by push_cast; ring, ?_⟩
      have : ((k : Int) + 1) * delta ≤ stop - start := (hmul _).mpr (by omega)
      linarith
    · rintro ⟨k, hk1, rfl, hle⟩
      obtain ⟨k, rfl⟩ : ∃ j, k = j + 1 := ⟨k - 1, by omega⟩
      refine ⟨k, ?_, by push_cast; ring⟩
      have : ((k : Int) + 1) ≤ (stop - start) / delta :=
        (hmul _).mp (by push_cast at hle; linarith)
      omega
  · rw [List.pairwise_map]
    refine (List.pairwise_lt_range _).imp ?_
    intro a b hab
    have : (a : Int) < b := by exact_mod_cast hab
    nlinarith

/-- C3 (resample as-of alignment), evaluated on the ascending index `[1, 2, 7]`
with column `price = [10, 20, 70]` and `resample(0, 8, 2)`: the grid is
`[2, 4, 6, 8]` and the positions chosen are `[1, 0, 0, 2]`, so the grid points
`4` and `6` receive row `0` (index value `1`, price `10`), although the largest
index value not exceeding them is `2` (row `1`, price `20`). -/
theorem resample_takes_first_row_after_gap :
    resample_merge_loop [1, 2, 7] [2, 4, 6, 8] 16 0 0 0 (List.replicate 4 0)
        = .ok [1, 0, 0, 2] ∧
      gap_frame.resample 16 .long 0 8 2
        = .ok ⟨[.integral .int [20, 10, 10, 70]], .integral .long [2, 4, 6, 8], ["price"]⟩ :=
  ⟨rfl, rfl⟩

/-- C4 (resample grid), evaluated at `start = 10`, `stop = 5`, `delta = 1` on the
example frame: the capacity request `(stop - start) / delta = -5` becomes
`2 ^ 64 - 5` as a `std::size_t`, above every `max_size()`, and `resample` ends in
`std::length_error` whatever the fuel, instead of returning a frame with an
empty grid; with `stop = 10` the request is `0` and the grid is empty. -/
theorem resample_reversed_range_throws (fuel : Nat) :
    to_size_t ((5 - 10 : Int).tdiv 1) = 2 ^ 64 - 5 ∧
      price_frame.resample fuel .long 10 5 1 = .error .length_error ∧
      price_frame.resample 8 .long 10 10 1
        = .ok ⟨[.integral .int []], .integral .long [], ["price"]⟩ :=
  ⟨rfl, rfl, rfl⟩

section pct_change

variable [LinearOrderedField R]

theorem pct_change_floating_length (values : List (Option R)) :
    (pct_change_floating values).length = values.length - 1 := by
  induction values with
  | nil => rfl
  | cons v values ih =>
    cases values with
    | nil => rfl
    | cons u values =>
      simp only [pct_change_floating, List.length_cons, ih]
      rfl

theorem pct_change_floating_getElem (values : List (Option R)) :
    ∀ (i : Nat) (h : i + 1 < values.length) (h0 : i < values.length),
      (pct_change_floating values)[i]?
        = some (dsub (ddiv values[i + 1] values[i]) (some 1)) := by
  induction values with
  | nil => intro i h; simp at h
  | cons v values ih =>
    cases values with
    | nil => intro i h; simp at h
    | cons u values =>
      intro i h h0
      cases i with
      | zero => simp [pct_change_floating]
      | succ i =>
        have := ih i (by simpa using h) (by simpa using h0)
        simpa [pct_change_floating] using this

/-- `Series<double>::pct_change` on a column of `N ≥ 1` real values with no zero
among the first `N - 1`: the result has `N - 1` elements, the `i`-th being the
exact quotient `values[i + 1] / values[i] - 1`. -/
theorem pct_change_floating_spec (xs : List R) (hne : xs ≠ [])
    (hsize : xs.length ≤ vector_max_size 8)
    (hnz : ∀ (i : Nat) (h : i + 1 < xs.length), xs[i] ≠ 0) :
    ∃ out, (Series.floating (xs.map some)).pct_change = .ok (.floating out) ∧
      out.length = xs.length - 1 ∧
      ∀ (i : Nat) (h : i + 1 < xs.length), out[i]? = some (some (xs[i + 1] / xs[i] - 1)) := by
  have hpos : 0 < xs.length := List.length_pos.mpr hne
  have hcap : ¬ vector_max_size 8 < to_size_t (((xs.map some).length : Int) - 1) := by
    have h0 : (0 : Int) ≤ ((xs.map some).length : Int) - 1 := by simp; omega
    have h1 : ((xs.map some).length : Int) - 1 < 2 ^ 64 := by
      have := vector_max_size_lt 8
      simp only [List.length_map]; omega
    rw [to_size_t, Int.emod_eq_of_lt h0 h1]
    simp only [List.length_map]; omega
  refine ⟨pct_change_floating (xs.map some), ?_, by simp [pct_change_floating_length], ?_⟩
  · simp only [List.length_map] at hcap
    simp [Series.pct_change, Series.size, hcap]
  · intro i h
    rw [pct_change_floating_getElem _ i (by simpa using h) (by simp; omega)]
    simp [ddiv, dsub, hnz i h]

end pct_change

/-- C5 (column percent_change), evaluated on the `int` column `[10, 11, 9, 12]`:
the quotients are taken in `int`, so the result is `[0, -1, 0]` and not
`[1/10, -2/11, 1/3]`; the same values in a `double` column give the exact
quotients. -/
theorem pct_change_int_truncates :
    (Series.integral .int [10, 11, 9, 12] : Series ℚ).pct_change
        = .ok (.floating [some 0, some (-1), some 0]) ∧
      (Series.floating [some 10, some 11, some 9, some 12] : Series ℚ).pct_change
        = .ok (.floating [some (1 / 10), some (-2 / 11), some (1 / 3)]) := by
  constructor
  · norm_num [Series.pct_change, pct_change_integral, pct_change_op, IntType.wrap,
      IntType.div_faults, Series.size, vector_max_size, to_size_t, Except.map, Int.tdiv]
  · norm_num [Series.pct_change, pct_change_floating, Series.size, vector_max_size, to_size_t,
      ddiv, dsub]

theorem subscript_loop_ok (df : DataFrame R) (hlen : df.values.length = df.columns.length)
    (cols : List String) (hcols : ∀ c ∈ cols, c ∈ df.columns) :
    ∃ data, subscript_loop df cols = .ok data ∧
      List.Forall₂ (fun c s => df.values[df.columns.indexOf c]? = some s) cols data := by
  induction cols with
  | nil => exact ⟨[], rfl, List.Forall₂.nil⟩
  | cons c cols ih =>
    obtain ⟨data, hd, hF⟩ := ih (fun x hx => hcols x (List.mem_cons_of_mem _ hx))
    have hc : df.columns.indexOf c < df.values.length := by
      rw [hlen]; exact List.indexOf_lt_length.mpr (hcols c (List.mem_cons_self _ _))
    refine ⟨df.values[df.columns.indexOf c] :: data, ?_, List.Forall₂.cons ?_ hF⟩
    · simp [subscript_loop, DataFrame.find_column_index, List.getElem?_eq_getElem hc, hd]
    · exact List.getElem?_eq_getElem hc

theorem subscript_loop_self (columns : List String) (index : Series R) :
    ∀ (pre post : List (Series R)) (names : List String), names.length = pre.length →
      post.length = columns.length → (names ++ columns).Nodup →
      subscript_loop ⟨pre ++ post, index, names ++ columns⟩ columns = .ok post := by
  induction columns with
  | nil =>
    intro pre post names _ hpost _
    have : post = [] := List.length_eq_zero.mp (by simpa using hpost)
    simp [subscript_loop, this]
  | cons c columns ih =>
    intro pre post names hpre hpost hnd
    cases post with
    | nil => simp at hpost
    | cons s post =>
      have hnot : c ∉ names := by
        intro hmem
        have := List.nodup_append.mp hnd
        exact this.2.2 hmem (List.mem_cons_self _ _)
      have hidx : (names ++ c :: columns).indexOf c = pre.length := by
        rw [List.indexOf_append_of_not_mem hnot, hpre]; simp
      have hrec := ih (pre ++ [s]) post (names ++ [c]) (by simp [hpre])
        (by simpa using hpost) (by simpa using hnd)
      simp only [List.append_assoc, List.singleton_append] at hrec
      have hget : (pre ++ s :: post)[pre.length]? = some s := by
        rw [List.getElem?_append_right (le_refl _)]; simp
      simp [subscript_loop, DataFrame.find_column_index, hidx, hrec, hget]

/-- C8 (project): on a frame with one name per column and unique names, for
names that all occur in the frame, `operator[]` on the name list returns a frame
whose column-name list is the given list, whose index is the frame's index, and
whose `k`-th column is the frame's column at the position of `names[k]`; on the
frame's own name list it returns the frame itself. -/
theorem project_columns (df : DataFrame R) (names : List String)
    (hlen : df.values.length = df.columns.length) (hnodup : df.columns.Nodup)
    (hnames : ∀ c ∈ names, c ∈ df.columns) :
    (∃ out, df.subscript_list names = .ok out ∧ out.columns = names ∧
        out.index = df.index ∧ out.values.length = names.length ∧
        ∀ k j (hk : k < names.length) (hj : j < df.columns.length),
          names[k] = df.columns[j] → out.values[k]? = df.values[j]?) ∧
      df.subscript_list df.columns = .ok df := by
  constructor
  · obtain ⟨data, hd, hF⟩ := subscript_loop_ok df hlen names hnames
    refine ⟨⟨data, df.index, names⟩, by simp [DataFrame.subscript_list, hd], rfl, rfl,
      hF.length_eq.symm, ?_⟩
    intro k j hk hj hkj
    obtain ⟨_, hget⟩ := List.forall₂_iff_get.mp hF
    have := hget k hk (hF.length_eq ▸ hk)
    simp only [List.get_eq_getElem] at this
    have hidx : df.columns.indexOf names[k] = j := by
      rw [hkj]; exact List.indexOf_getElem hnodup j hj
    rw [hidx] at this
    rw [this]
    exact List.getElem?_eq_getElem (hF.length_eq ▸ hk)
  · have := subscript_loop_self df.columns df.index [] df.values [] rfl hlen (by simpa using hnodup)
    simp only [List.nil_append] at this
    simp [DataFrame.subscript_list, this]

/-- Witness for C8: the projection of the three-column frame on `["c", "a"]`, and
on its own name list. -/
theorem project_columns_witness :
    abc_frame.subscript_list ["c", "a"]
        = .ok ⟨[.integral .long [5, 6], .integral .int [1, 2]], .integral .size_t [0, 1],
            ["c", "a"]⟩ ∧
      ((∃ out, abc_frame.subscript_list ["c", "a"] = .ok out ∧ out.columns = ["c", "a"] ∧
          out.index = abc_frame.index ∧ out.values.length = ["c", "a"].length ∧
          ∀ k j (hk : k < ["c", "a"].length) (hj : j < abc_frame.columns.length),
            ["c", "a"][k] = abc_frame.columns[j] → out.values[k]? = abc_frame.values[j]?) ∧
        abc_frame.subscript_list abc_frame.columns = .ok abc_frame) :=
  ⟨rfl, project_columns abc_frame ["c", "a"] rfl (by decide) (by decide)⟩

/-- C10 (set_index by name): on a frame with one name per column, for a name `c`
that occurs, `set_index(c)` returns; the new index is the column at the position
`i` of the first occurrence of `c`; that column and that name are removed
(`eraseIdx i`), so both lists are one shorter, the entries before position `i`
stay in place and the entries after it move up by one. -/
theorem set_index_by_name (df : DataFrame R) (c : String)
    (hlen : df.values.length = df.columns.length) (hc : c ∈ df.columns) :
    ∃ out, df.set_index_col c = .ok out ∧
      df.columns[df.find_column_index c]? = some c ∧
      df.values[df.find_column_index c]? = some out.index ∧
      out.values = df.values.eraseIdx (df.find_column_index c) ∧
      out.columns = df.columns.eraseIdx (df.find_column_index c) ∧
      out.values.length + 1 = df.values.length ∧
      out.columns.length + 1 = df.columns.length ∧
      (∀ k, k < df.find_column_index c →
        out.values[k]? = df.values[k]? ∧ out.columns[k]? = df.columns[k]?) ∧
      (∀ k, df.find_column_index c ≤ k →
        out.values[k]? = df.values[k + 1]? ∧ out.columns[k]? = df.columns[k + 1]?) := by
  have hi : df.find_column_index c < df.columns.length := List.indexOf_lt_length.mpr hc
  have hi' : df.find_column_index c < df.values.length := hlen ▸ hi
  refine ⟨⟨df.values.eraseIdx (df.find_column_index c), df.values[df.find_column_index c],
      df.columns.eraseIdx (df.find_column_index c)⟩, ?_, ?_, ?_, rfl, rfl, ?_, ?_, ?_, ?_⟩
  · simp [DataFrame.set_index_col, DataFrame.set_index, List.getElem?_eq_getElem hi', hi]
  · rw [List.getElem?_eq_getElem hi]
    exact congrArg some (List.indexOf_get hi)
  · exact List.getElem?_eq_getElem hi'
  · simp only [List.length_eraseIdx, hi', if_true]; omega
  · simp only [List.length_eraseIdx, hi, if_true]; omega
  · intro k hk
    simp [List.getElem?_eraseIdx, hk]
  · intro k hk
    simp [List.getElem?_eraseIdx, Nat.not_lt.mpr hk]

/-- Witness for C10: `set_index("b")` on the three-column frame. -/
theorem set_index_by_name_witness :
    abc_frame.set_index_col "b"
        = .ok ⟨[.integral .int [1, 2], .integral .long [5, 6]], .integral .int [3, 4],
            ["a", "c"]⟩ ∧
      ∃ out, abc_frame.set_index_col "b" = .ok out ∧
        abc_frame.columns[abc_frame.find_column_index "b"]? = some "b" ∧
        abc_frame.values[abc_frame.find_column_index "b"]? = some out.index ∧
        out.values = abc_frame.values.eraseIdx (abc_frame.find_column_index "b") ∧
        out.columns = abc_frame.columns.eraseIdx (abc_frame.find_column_index "b") ∧
        out.values.length + 1 = abc_frame.values.length ∧
        out.columns.length + 1 = abc_frame.columns.length ∧
        (∀ k, k < abc_frame.find_column_index "b" →
          out.values[k]? = abc_frame.values[k]? ∧ out.columns[k]? = abc_frame.columns[k]?) ∧
        (∀ k, abc_frame.find_column_index "b" ≤ k →
          out.values[k]? = abc_frame.values[k + 1]? ∧
            out.columns[k]? = abc_frame.columns[k + 1]?) :=
  ⟨rfl, set_index_by_name abc_frame "b" rfl (by decide)⟩

theorem same_type_comm (s t : Series R) : s.same_type t = t.same_type s := by
  cases s <;> cases t <;> simp [Series.same_type, eq_comm]

theorem same_type_self (s : Series R) : s.same_type s = true := by
  cases s <;> simp [Series.same_type]

theorem subscript_ok (df : DataFrame R) (hlen : df.values.length = df.columns.length)
    (u : String) (hu : u ∈ df.columns) : ∃ su, df.subscript u = .ok su ∧ su ∈ df.values := by
  have hi : df.columns.indexOf u < df.values.length := by
    rw [hlen]; exact List.indexOf_lt_length.mpr hu
  exact ⟨df.values[df.columns.indexOf u],
    by simp [DataFrame.subscript, DataFrame.find_column_index, List.getElem?_eq_getElem hi],
    List.getElem_mem _⟩

section statistics

variable [LinearOrderedField R]

theorem dmul_comm (a b : Option R) : dmul a b = dmul b a := by
  cases a <;> cases b <;> simp [dmul, mul_comm]

theorem transform_reduce_comm (l1 l2 : List (Option R)) :
    transform_reduce l1 l2 = transform_reduce l2 l1 := by
  unfold transform_reduce
  rw [List.zipWith_comm_of_comm _ dmul_comm]

theorem Series.corr_eq (sqrt : R → R) (s t : Series R) (htype : s.same_type t = true)
    (hsize : s.size = t.size) :
    s.corr sqrt t
      = .ok (ddiv (ddiv (transform_reduce s.centerize t.centerize) (size_minus_one s.size))
          (dmul (s.std sqrt) (t.std sqrt))) := by
  simp [Series.corr, Series.cov, htype, hsize]

theorem Series.corr_comm (sqrt : R → R) (s t : Series R) (htype : s.same_type t = true)
    (hsize : s.size = t.size) : s.corr sqrt t = t.corr sqrt s := by
  rw [Series.corr_eq sqrt s t htype hsize,
    Series.corr_eq sqrt t s (by rw [same_type_comm, htype]) hsize.symm,
    transform_reduce_comm, dmul_comm, hsize]

theorem corr_inner_loop_ok (sqrt : R → R) (df : DataFrame R)
    (hlen : df.values.length = df.columns.length)
    (htype : ∀ s ∈ df.values, ∀ t ∈ df.values, s.same_type t = true)
    (hsize : ∀ s ∈ df.values, ∀ t ∈ df.values, s.size = t.size)
    (u : String) (su : Series R) (hu : df.subscript u = .ok su) (hsu : su ∈ df.values)
    (cols : List String) (hcols : ∀ v ∈ cols, v ∈ df.columns) :
    ∃ col, corr_inner_loop sqrt df u cols = .ok col ∧
      List.Forall₂ (fun v c => ∃ sv, df.subscript v = .ok sv ∧ su.corr sqrt sv = .ok c)
        cols col := by
  induction cols with
  | nil => exact ⟨[], rfl, List.Forall₂.nil⟩
  | cons v cols ih =>
    obtain ⟨col, hcol, hF⟩ := ih (fun x hx => hcols x (List.mem_cons_of_mem _ hx))
    obtain ⟨sv, hv, hsv⟩ := subscript_ok df hlen v (hcols v (List.mem_cons_self _ _))
    have hc := Series.corr_eq sqrt su sv (htype su hsu sv hsv) (hsize su hsu sv hsv)
    exact ⟨_ :: col, by simp [corr_inner_loop, hu, hv, hc, hcol],
      List.Forall₂.cons ⟨sv, hv, hc⟩ hF⟩

theorem corr_outer_loop_ok (sqrt : R → R) (df : DataFrame R)
    (hlen : df.values.length = df.columns.length)
    (htype : ∀ s ∈ df.values, ∀ t ∈ df.values, s.same_type t = true)
    (hsize : ∀ s ∈ df.values, ∀ t ∈ df.values, s.size = t.size)
    (cols : List String) (hcols : ∀ v ∈ cols, v ∈ df.columns) :
    ∃ data, corr_outer_loop sqrt df cols = .ok data ∧
      List.Forall₂
        (fun u s => ∃ su col, df.subscript u = .ok su ∧ s = Series.floating col ∧
          List.Forall₂ (fun v c => ∃ sv, df.subscript v = .ok sv ∧ su.corr sqrt sv = .ok c)
            df.columns col)
        cols data := by
  induction cols with
  | nil => exact ⟨[], rfl, List.Forall₂.nil⟩
  | cons u cols ih =>
    obtain ⟨data, hdata, hF⟩ := ih (fun x hx => hcols x (List.mem_cons_of_mem _ hx))
    obtain ⟨su, hu, hsu⟩ := subscript_ok df hlen u (hcols u (List.mem_cons_self _ _))
    obtain ⟨col, hcol, hFc⟩ :=
      corr_inner_loop_ok sqrt df hlen htype hsize u su hu hsu df.columns (fun _ h => h)
    exact ⟨.floating col :: data, by simp [corr_outer_loop, hcol, hdata],
      List.Forall₂.cons ⟨su, col, hu, rfl, hFc⟩ hF⟩

/-- The cells of `DataFrame::corr` on a frame with one name per column whose
columns have one element type and one length: the call returns, and the element
at row `i` of column `j` of the result is `corr` of the column named
`columns[j]` with the column named `columns[i]`. -/
theorem DataFrame.corr_cells (sqrt : R → R) (df : DataFrame R)
    (hlen : df.values.length = df.columns.length)
    (htype : ∀ s ∈ df.values, ∀ t ∈ df.values, s.same_type t = true)
    (hsize : ∀ s ∈ df.values, ∀ t ∈ df.values, s.size = t.size) :
    ∃ out, df.corr sqrt = .ok out ∧
      ∀ i j (hi : i < df.columns.length) (hj : j < df.columns.length),
        ∃ su sv c, df.subscript df.columns[j] = .ok su ∧ df.subscript df.columns[i] = .ok sv ∧
          su ∈ df.values ∧ sv ∈ df.values ∧
          su.corr sqrt sv = .ok c ∧ out.cell i j = some (.floating c) := by
  obtain ⟨data, hdata, hF⟩ :=
    corr_outer_loop_ok sqrt df hlen htype hsize df.columns (fun _ h => h)
  refine ⟨⟨data, .integral .size_t [], df.columns⟩, by simp [DataFrame.corr, hdata], ?_⟩
  intro i j hi hj
  obtain ⟨hl, hget⟩ := List.forall₂_iff_get.mp hF
  obtain ⟨su, col, hu, hs, hFc⟩ := hget j hj (hl ▸ hj)
  obtain ⟨hlc, hgetc⟩ := List.forall₂_iff_get.mp hFc
  obtain ⟨sv, hv, hc⟩ := hgetc i hi (hlc ▸ hi)
  simp only [List.get_eq_getElem] at hu hs hv hc
  obtain ⟨su', hu', hsu⟩ := subscript_ok df hlen df.columns[j] (List.getElem_mem _)
  obtain ⟨sv', hv', hsv⟩ := subscript_ok df hlen df.columns[i] (List.getElem_mem _)
  rw [hu] at hu'; rw [hv] at hv'
  cases hu'; cases hv'
  refine ⟨su, sv, _, hu, hv, hsu, hsv, hc, ?_⟩
  have hj' : j < data.length := hl ▸ hj
  have hi' : i < col.length := hlc ▸ hi
  simp [DataFrame.cell, List.getElem?_eq_getElem hj', hs, Series.value_at,
    List.getElem?_eq_getElem hi']

/-- C6 (correlation_matrix is symmetric): on a frame with one name per column
whose columns have one element type and one length, `DataFrame::corr` returns,
and for all positions `i`, `j` the correlation of the columns named
`columns[i]` and `columns[j]` is the same in both orders and is the value of
both cells `(i, j)` and `(j, i)` of the result. -/
theorem correlation_matrix_symmetric (sqrt : R → R) (df : DataFrame R)
    (hlen : df.values.length = df.columns.length)
    (htype : ∀ s ∈ df.values, ∀ t ∈ df.values, s.same_type t = true)
    (hsize : ∀ s ∈ df.values, ∀ t ∈ df.values, s.size = t.size) :
    ∃ out, df.corr sqrt = .ok out ∧
      ∀ i j (hi : i < df.columns.length) (hj : j < df.columns.length),
        ∃ su sv c, df.subscript df.columns[i] = .ok su ∧ df.subscript df.columns[j] = .ok sv ∧
          su.corr sqrt sv = .ok c ∧ sv.corr sqrt su = .ok c ∧
          out.cell i j = some (.floating c) ∧ out.cell j i = some (.floating c) := by
  obtain ⟨out, hout, hcells⟩ := DataFrame.corr_cells sqrt df hlen htype hsize
  refine ⟨out, hout, fun i j hi hj => ?_⟩
  obtain ⟨sj, si, c, hsj, hsi, hmj, hmi, hc, hcell⟩ := hcells i j hi hj
  obtain ⟨si', sj', c', hsi', hsj', _, _, hc', hcell'⟩ := hcells j i hj hi
  rw [hsi] at hsi'; rw [hsj] at hsj'
  cases hsi'; cases hsj'
  have hcomm := Series.corr_comm sqrt si sj (htype si hmi sj hmj) (hsize si hmi sj hmj)
  rw [hc, hc'] at hcomm
  cases hcomm
  exact ⟨si, sj, c, hsi, hsj, hc', hc, hcell, hcell'⟩

/-- A series whose sample variance is a non-zero real number `v`, with
`sqrt v * sqrt v = v`, has correlation `1` with itself. -/
theorem Series.corr_self (sqrt : R → R) (s : Series R) (v : R) (hvar : s.var = some v)
    (hv : v ≠ 0) (hsqrt : sqrt v * sqrt v = v) : s.corr sqrt s = .ok (some 1) := by
  have hnn : ¬ v < 0 := not_lt.mpr (hsqrt ▸ mul_self_nonneg (sqrt v))
  have hcov : ddiv (transform_reduce s.centerize s.centerize) (size_minus_one s.size) = some v :=
    hvar
  rw [Series.corr_eq sqrt s s (same_type_self s) rfl, hcov]
  simp [Series.std, hvar, dsqrt, hnn, dmul, ddiv, hsqrt, hv]

/-- C7 (correlation_matrix diagonal), as amended: on a frame with one name per
column whose columns have one element type and one length, for every column
whose sample variance is a non-zero real number `v` (which a constant column and
a column of fewer than two rows do not have) and `sqrt v * sqrt v = v`, the
correlation of the column with itself, and with it the diagonal cell of
`DataFrame::corr`, is `1`. -/
theorem correlation_matrix_diagonal (sqrt : R → R) (df : DataFrame R)
    (hlen : df.values.length = df.columns.length)
    (htype : ∀ s ∈ df.values, ∀ t ∈ df.values, s.same_type t = true)
    (hsize : ∀ s ∈ df.values, ∀ t ∈ df.values, s.size = t.size)
    (i : Nat) (hi : i < df.columns.length) (s : Series R)
    (hs : df.subscript df.columns[i] = .ok s) (v : R) (hvar : s.var = some v) (hv : v ≠ 0)
    (hsqrt : sqrt v * sqrt v = v) :
    s.corr sqrt s = .ok (some 1) ∧
      ∃ out, df.corr sqrt = .ok out ∧ out.cell i i = some (.floating (some 1)) := by
  have hself := Series.corr_self sqrt s v hvar hv hsqrt
  obtain ⟨out, hout, hcells⟩ := DataFrame.corr_cells sqrt df hlen htype hsize
  obtain ⟨su, sv, c, hsu, hsv, _, _, hc, hcell⟩ := hcells i i hi hi
  rw [hs] at hsu hsv
  cases hsu; cases hsv
  rw [hself] at hc
  cases hc
  exact ⟨hself, out, hout, hcell⟩

end statistics

/-- C7 as stated fails on a constant column and on a column of length 1: for the
`int` columns `[5, 5]` and `[7]` the correlation of the column with itself is
not a real number (the quotient is `0 / 0`), hence not `1`. -/
theorem correlation_diagonal_undefined :
    (Series.integral .int [5, 5] : Series ℚ).var = some 0 ∧
      (Series.integral .int [5, 5] : Series ℚ).corr Rat.sqrt (.integral .int [5, 5])
        = .ok none ∧
      (Series.integral .int [7] : Series ℚ).var = none ∧
      (Series.integral .int [7] : Series ℚ).corr Rat.sqrt (.integral .int [7]) = .ok none := by
  have h1 : (Series.integral .int [5, 5] : Series ℚ).var = some 0 := by
    norm_num [Series.var, Series.centerize, Series.mean, Series.to_double, Series.size,
      transform_reduce, reduce, size_minus_one, to_size_t, dadd, dsub, dmul, ddiv]
  have h2 : (Series.integral .int [7] : Series ℚ).var = none := by
    norm_num [Series.var, Series.centerize, Series.mean, Series.to_double, Series.size,
      transform_reduce, reduce, size_minus_one, to_size_t, dadd, dsub, dmul, ddiv]
  refine ⟨h1, ?_, h2, ?_⟩
  · rw [Series.corr_eq _ _ _ (same_type_self _) rfl]
    have hc : ddiv (transform_reduce (Series.integral .int [5, 5] : Series ℚ).centerize
        (Series.integral .int [5, 5] : Series ℚ).centerize)
        (size_minus_one (Series.integral .int [5, 5] : Series ℚ).size) = some 0 := h1
    rw [hc]
    simp [Series.std, h1, dsqrt, dmul, ddiv]
  · rw [Series.corr_eq _ _ _ (same_type_self _) rfl]
    have hc : ddiv (transform_reduce (Series.integral .int [7] : Series ℚ).centerize
        (Series.integral .int [7] : Series ℚ).centerize)
        (size_minus_one (Series.integral .int [7] : Series ℚ).size) = none := h2
    rw [hc]
    simp [ddiv]

/-- Witness for C6: the frame of two `int` columns of three rows. -/
theorem correlation_matrix_symmetric_witness :
    ∃ out, xy_frame.corr Rat.sqrt = .ok out ∧
      ∀ i j (hi : i < xy_frame.columns.length) (hj : j < xy_frame.columns.length),
        ∃ su sv c, xy_frame.subscript xy_frame.columns[i] = .ok su ∧
          xy_frame.subscript xy_frame.columns[j] = .ok sv ∧
          su.corr Rat.sqrt sv = .ok c ∧ sv.corr Rat.sqrt su = .ok c ∧
          out.cell i j = some (.floating c) ∧ out.cell j i = some (.floating c) :=
  correlation_matrix_symmetric Rat.sqrt xy_frame rfl (by decide) (by decide)

/-- Witness for C7 as amended: the column `x = [1, 2, 3]` has sample variance
`1`. -/
theorem correlation_matrix_diagonal_witness :
    (Series.integral .int [1, 2, 3] : Series ℚ).var = some 1 ∧
      (Series.integral .int [1, 2, 3] : Series ℚ).corr Rat.sqrt (.integral .int [1, 2, 3])
        = .ok (some 1) ∧
      ∃ out, xy_frame.corr Rat.sqrt = .ok out ∧ out.cell 0 0 = some (.floating (some 1)) :=
  have hsize : size_minus_one (R := ℚ) 3 = some 2 := by
    have : to_size_t 2 = 2 := by decide
    norm_num [size_minus_one, this]
  have hvar : (Series.integral .int [1, 2, 3] : Series ℚ).var = some 1 := by
    norm_num [Series.var, Series.centerize, Series.mean, Series.to_double, Series.size,
      transform_reduce, reduce, hsize, dadd, dsub, dmul, ddiv]
  ⟨hvar, correlation_matrix_diagonal Rat.sqrt xy_frame rfl (by decide) (by decide) 0
    (by decide) (.integral .int [1, 2, 3]) rfl 1 hvar one_ne_zero (by simp)⟩

section table_pct_change

variable [LinearOrderedField R]

theorem pct_change_integral_ok (T : IntType) (values : List Int)
    (hzero : ∀ i, i + 1 < values.length → values.getD i 0 ≠ 0)
    (hleast : ∀ i, i + 1 < values.length →
      ¬ (T ≠ .size_t ∧ values.getD (i + 1) 0 = T.min ∧ values.getD i 0 = -1)) :
    ∃ data : List (Option R), pct_change_integral T values = .ok data ∧
      data.length = values.length - 1 := by
  induction values with
  | nil => exact ⟨[], rfl, rfl⟩
  | cons v values ih =>
    cases values with
    | nil => exact ⟨[], rfl, rfl⟩
    | cons u values =>
      obtain ⟨data, hd, hl⟩ := ih
        (fun i hi => by
          have := hzero (i + 1) (by simpa using hi)
          simpa using this)
        (fun i hi => by
          have := hleast (i + 1) (by simpa using hi)
          simpa using this)
      have hv : v ≠ 0 := by simpa using hzero 0 (by simp)
      have hu : ¬ (T ≠ .size_t ∧ u = T.min ∧ v = -1) := by simpa using hleast 0 (by simp)
      have hc : ¬ T.div_faults u v := by
        rintro (h | h)
        · exact hv h
        · exact hu h
      refine ⟨some ((pct_change_op T u v : Int) : R) :: data, ?_, ?_⟩
      · rw [pct_change_integral, if_neg hc, hd]
      · simp [hl]

theorem Series.pct_change_ok (s : Series R) (hrows : 0 < s.size)
    (hmax : s.size ≤ vector_max_size 8)
    (hzero : ∀ T values, s = .integral T values →
      ∀ i, i + 1 < values.length → values.getD i 0 ≠ 0)
    (hleast : ∀ T values, s = .integral T values →
      ∀ i, i + 1 < values.length →
        ¬ (T ≠ .size_t ∧ values.getD (i + 1) 0 = T.min ∧ values.getD i 0 = -1)) :
    ∃ o, s.pct_change = .ok o ∧ o.size = s.size - 1 := by
  have hcap : ¬ vector_max_size 8 < to_size_t ((s.size : Int) - 1) := by
    have h0 : (0 : Int) ≤ (s.size : Int) - 1 := by omega
    have h1 : (s.size : Int) - 1 < 2 ^ 64 := by
      have := vector_max_size_lt 8
      omega
    rw [to_size_t, Int.emod_eq_of_lt h0 h1]
    omega
  cases s with
  | integral T values =>
    obtain ⟨data, hd, hl⟩ := pct_change_integral_ok (R := R) T values (hzero T values rfl)
      (hleast T values rfl)
    refine ⟨.floating data, ?_, by simpa [Series.size] using hl⟩
    simp only [Series.pct_change, if_neg hcap, hd, Except.map]
  | floating values =>
    refine ⟨.floating (pct_change_floating values), ?_,
      by simp [Series.size, pct_change_floating_length]⟩
    simp only [Series.pct_change, if_neg hcap]

/-- `DataFrame::pct_change` on a frame of `N ≥ 1` rows, `N` not above the
`max_size()` of a vector of `double`, in which no column of an integral type `T`
has a zero among its first `N - 1` values or, for a signed `T`, the least value
of `T` right after a `-1`: the call returns, the names and the index are those of the frame, and
every column is replaced by its `Series::pct_change`, of `N - 1` elements. -/
theorem DataFrame.pct_change_rows (df : DataFrame R) (hrows : 0 < df.index.size)
    (hmax : df.index.size ≤ vector_max_size 8)
    (hvalues : ∀ s ∈ df.values, s.size = df.index.size)
    (hzero : ∀ T values, Series.integral T values ∈ df.values →
      ∀ i, i + 1 < values.length → values.getD i 0 ≠ 0)
    (hleast : ∀ T values, Series.integral T values ∈ df.values →
      ∀ i, i + 1 < values.length →
        ¬ (T ≠ .size_t ∧ values.getD (i + 1) 0 = T.min ∧ values.getD i 0 = -1)) :
    ∃ out, df.pct_change = .ok out ∧ out.columns = df.columns ∧ out.index = df.index ∧
      List.Forall₂ (fun s o => s.pct_change = .ok o ∧ o.size = df.index.size - 1)
        df.values out.values := by
  obtain ⟨values, hv, hF⟩ :=
    for_each_column_ok
      (P := fun s o => s.pct_change = .ok o ∧ o.size = df.index.size - 1)
      (f := fun s => s.pct_change) df.values
      (fun s hs => by
        obtain ⟨o, ho, hsz⟩ := Series.pct_change_ok s (by rw [hvalues s hs]; exact hrows)
          (by rw [hvalues s hs]; exact hmax)
          (fun T values h => hzero T values (h ▸ hs))
          (fun T values h => hleast T values (h ▸ hs))
        exact ⟨o, ho, ho, by rw [hsz, hvalues s hs]⟩)
  exact ⟨{ df with values := values }, by simp [DataFrame.pct_change, hv], rfl, rfl, hF⟩

end table_pct_change

/-- C11 (table percent_change), evaluated on two frames with an `int` column. On
the frame whose column is `[0, 5]` the quotient `5 / 0` is taken in `int` and the
call does not return (integral division by zero), so no column of length
`N - 1` is produced. On the example frame the column `[10, 11, 9, 12]` becomes
`[0, -1, 0]`, the truncated quotients, while names and index are unchanged. -/
theorem table_pct_change_int_division :
    zero_frame.pct_change = .error .division ∧
      price_frame.pct_change
        = .ok ⟨[.floating [some 0, some (-1), some 0]], .integral .long [0, 1, 2, 3],
            ["price"]⟩ := by
  constructor
  · rfl
  · norm_num [price_frame, DataFrame.pct_change, for_each_column, Series.pct_change,
      pct_change_integral, pct_change_op, IntType.wrap, IntType.div_faults, Series.size,
      vector_max_size, to_size_t, Except.map, Int.tdiv]

theorem subscript_unknown (df : DataFrame R) (hlen : df.values.length = df.columns.length)
    (col : String) (hcol : col ∉ df.columns) :
    df.values[df.find_column_index col]? = none := by
  have : df.find_column_index col = df.columns.length := by
    simpa [DataFrame.find_column_index] using List.indexOf_eq_length.mpr hcol
  rw [this, ← hlen]
  exact List.getElem?_eq_none (le_refl _)

theorem subscript_loop_unknown (df : DataFrame R) (hlen : df.values.length = df.columns.length)
    (col : String) (hcol : col ∉ df.columns) (cols : List String) (hmem : col ∈ cols) :
    subscript_loop df cols = .error .out_of_range := by
  induction cols with
  | nil => simp at hmem
  | cons c cols ih =>
    unfold subscript_loop
    cases hc : df.values[df.find_column_index c]? with
    | none => rfl
    | some s =>
      have hne : col ≠ c := by
        rintro rfl
        rw [subscript_unknown df hlen col hcol] at hc
        cases hc
      have := ih (by simpa [hne] using hmem)
      simp [this]

/-- C13 (unknown column name), as amended: on a frame with one name per column,
for a name that is not a column name, column access by that name, projection on
any list containing it, `filter` on it and `set_index` with it all read
`values[size(columns)]`, one past the end of the column vector: the outcome is
undefined behaviour, which is not a reported error, and the call defines no
result. -/
theorem unknown_column_out_of_range [LinearOrderedField R] (df : DataFrame R)
    (hlen : df.values.length = df.columns.length) (col : String) (hcol : col ∉ df.columns) :
    df.subscript col = .error .out_of_range ∧
      (∀ cols, col ∈ cols → df.subscript_list cols = .error .out_of_range) ∧
      (∀ T val, df.filter T col val = .error .out_of_range) ∧
      (∀ val, df.filter_double col val = .error .out_of_range) ∧
      df.set_index_col col = .error .out_of_range ∧
      Fault.reported .out_of_range = false := by
  have h := subscript_unknown df hlen col hcol
  refine ⟨by simp [DataFrame.subscript, h], fun cols hmem => ?_, fun T val => ?_, fun val => ?_,
    by simp [DataFrame.set_index_col, h], rfl⟩
  · simp [DataFrame.subscript_list, subscript_loop_unknown df hlen col hcol cols hmem]
  · simp [DataFrame.filter, h]
  · simp [DataFrame.filter_double, h]

/-- Witness for C13 as amended: the name `z` on the three-column frame. -/
theorem unknown_column_out_of_range_witness :
    abc_frame.subscript "z" = .error .out_of_range ∧
      (∀ cols, "z" ∈ cols → abc_frame.subscript_list cols = .error .out_of_range) ∧
      (∀ T val, abc_frame.filter T "z" val = .error .out_of_range) ∧
      (∀ val, abc_frame.filter_double "z" val = .error .out_of_range) ∧
      abc_frame.set_index_col "z" = .error .out_of_range ∧
      Fault.reported .out_of_range = false :=
  unknown_column_out_of_range abc_frame rfl "z" (by decide)

/-- C13 as stated fails on the three-column frame and the name `z`: column access,
projection on `["a", "z"]`, `filter` and `set_index` end in a read past the end
of the column vector, and none of them ends in a reported error. -/
theorem unknown_column_not_reported :
    abc_frame.subscript "z" = .error .out_of_range ∧
      abc_frame.subscript_list ["a", "z"] = .error .out_of_range ∧
      abc_frame.filter .int "z" 1 = .error .out_of_range ∧
      abc_frame.set_index_col "z" = .error .out_of_range ∧
      (¬ ∃ e, abc_frame.subscript "z" = .error e ∧ e.reported = true) ∧
      (¬ ∃ e, abc_frame.subscript_list ["a", "z"] = .error e ∧ e.reported = true) ∧
      (¬ ∃ e, abc_frame.filter .int "z" 1 = .error e ∧ e.reported = true) ∧
      (¬ ∃ e, abc_frame.set_index_col "z" = .error e ∧ e.reported = true) := by
  have h1 : abc_frame.subscript "z" = .error .out_of_range := rfl
  have h2 : abc_frame.subscript_list ["a", "z"] = .error .out_of_range := rfl
  have h3 : abc_frame.filter .int "z" 1 = .error .out_of_range := rfl
  have h4 : abc_frame.set_index_col "z" = .error .out_of_range := rfl
  refine ⟨h1, h2, h3, h4, ?_, ?_, ?_, ?_⟩
  · rintro ⟨e, he, hr⟩; rw [h1] at he; cases he; cases hr
  · rintro ⟨e, he, hr⟩; rw [h2] at he; cases he; cases hr
  · rintro ⟨e, he, hr⟩; rw [h3] at he; cases he; cases hr
  · rintro ⟨e, he, hr⟩; rw [h4] at he; cases he; cases hr

theorem Series.iloc_bool_assert (s : Series R) (ib : List Bool) (h : ib.length ≠ s.size) :
    s.iloc_bool ib = .error .assertion := by
  cases s <;> simp_all [Series.iloc_bool, iloc_bool_values, Series.size, Except.map]

/-- C14 (mask length check): for a mask whose length differs from the size of the
series, `Series::iloc` on the mask stops at its `assert` on the two sizes, before
any element of the mask or of the values is read, and returns no series; on a
frame whose row count (the size of its index) differs from the mask length,
`DataFrame::iloc` stops at that `assert` for the index and returns no frame.
The failed `assert` is a reported fault. -/
theorem mask_length_check (ib : List Bool) :
    (∀ s : Series R, ib.length ≠ s.size → s.iloc_bool ib = .error .assertion) ∧
      (∀ df : DataFrame R, ib.length ≠ df.index.size →
        df.iloc_bool ib = .error .assertion) ∧
      Fault.reported .assertion = true := by
  refine ⟨fun s h => Series.iloc_bool_assert s ib h, fun df h => ?_, rfl⟩
  simp [DataFrame.iloc_bool, Series.iloc_bool_assert df.index ib h]

/-- Witness for C14: a mask of three entries (too short) and one of five entries
(too long) on the example frame of four rows and on its column. -/
theorem mask_length_check_witness :
    ((Series.integral .int [10, 11, 9, 12] : Series ℚ).iloc_bool [true, false, true]
        = .error .assertion ∧
      price_frame.iloc_bool [true, false, true] = .error .assertion) ∧
    ((Series.integral .int [10, 11, 9, 12] : Series ℚ).iloc_bool
          [true, false, true, true, true] = .error .assertion ∧
      price_frame.iloc_bool [true, false, true, true, true] = .error .assertion) :=
  ⟨⟨(mask_length_check [true, false, true]).1 _ (by decide),
      (mask_length_check [true, false, true]).2.1 price_frame (by decide)⟩,
    ⟨(mask_length_check [true, false, true, true, true]).1 _ (by decide),
      (mask_length_check [true, false, true, true, true]).2.1 price_frame (by decide)⟩⟩

theorem iloc_loop_out_of_range {α : Type} (values : List α) (is : List Nat)
    (h : ∃ i ∈ is, values.length ≤ i) : iloc_loop values is = .error .out_of_range := by
  induction is with
  | nil => simp at h
  | cons i is ih =>
    unfold iloc_loop
    cases hv : values[i]? with
    | none => rfl
    | some v =>
      have hi : i < values.length := by
        by_contra hc
        rw [List.getElem?_eq_none (not_lt.mp hc)] at hv
        cases hv
      have : ∃ i ∈ is, values.length ≤ i := by
        obtain ⟨k, hk, hle⟩ := h
        rcases List.mem_cons.mp hk with rfl | hk'
        · omega
        · exact ⟨k, hk', hle⟩
      simp [ih this]

theorem Series.iloc_out_of_range (s : Series R) (is : List Nat) (h : ∃ i ∈ is, s.size ≤ i) :
    s.iloc is = .error .out_of_range := by
  cases s <;> simp [Series.iloc, iloc_loop_out_of_range _ is h, Except.map]

/-- C15 (gather bounds), as amended: for a position list that contains a position
not below the size of the series, `Series::iloc` reads `values[i]` outside the
series at the first such position; for a frame whose row count (the size of its
index) is exceeded, `DataFrame::iloc` does so on the index. The read is
undefined behaviour, not a reported error, and the call defines no result. -/
theorem gather_out_of_range (is : List Nat) :
    (∀ s : Series R, (∃ i ∈ is, s.size ≤ i) → s.iloc is = .error .out_of_range) ∧
      (∀ df : DataFrame R, (∃ i ∈ is, df.index.size ≤ i) →
        df.iloc is = .error .out_of_range) ∧
      Fault.reported .out_of_range = false := by
  refine ⟨fun s h => Series.iloc_out_of_range s is h, fun df h => ?_, rfl⟩
  simp [DataFrame.iloc, Series.iloc_out_of_range df.index is h]

/-- Witness for C15 as amended: the positions `[1, 7]` on the example frame of
four rows and on its column. -/
theorem gather_out_of_range_witness :
    (Series.integral .int [10, 11, 9, 12] : Series ℚ).iloc [1, 7] = .error .out_of_range ∧
      price_frame.iloc [1, 7] = .error .out_of_range :=
  ⟨(gather_out_of_range [1, 7]).1 _ ⟨7, by decide, by decide⟩,
    (gather_out_of_range [1, 7]).2.1 price_frame ⟨7, by decide, by decide⟩⟩

/-- C15 as stated fails on the column `[10, 11, 9, 12]` and the positions `[1, 7]`:
the call ends in the read of `values[7]`, outside the column, and not in a
reported error. -/
theorem gather_reads_outside :
    (Series.integral .int [10, 11, 9, 12] : Series ℚ).iloc [1, 7] = .error .out_of_range ∧
      price_frame.iloc [1, 7] = .error .out_of_range ∧
      (¬ ∃ e, (Series.integral .int [10, 11, 9, 12] : Series ℚ).iloc [1, 7] = .error e ∧
        e.reported = true) := by
  have h1 : (Series.integral .int [10, 11, 9, 12] : Series ℚ).iloc [1, 7]
      = .error .out_of_range := rfl
  refine ⟨h1, rfl, ?_⟩
  rintro ⟨e, he, hr⟩; rw [h1] at he; cases he; cases hr

/-- C16 (column add): for two series of one element type, `Series::plus` (and
`operator+`, which calls it) returns exactly when the sizes are equal; the result
is then a new series of that element type and size. For an integral element
type `T` its `i`-th element is `a[i] + b[i]` whenever `T` holds that sum, and for
`std::size_t` it is the sum modulo `2 ^ 64` in every case. For `double` its
`i`-th element is the sum `x + y` of the reals `x = a[i]` and `y = b[i]`, and not
a real number as soon as one operand is not. When the sizes differ the call
stops at its `assert`, a reported fault. The operands are values of the
embedding and are not changed by the call. -/
theorem column_add [LinearOrderedField R] :
    (∀ (T : IntType) (a b : List Int),
      (a.length = b.length →
        ∃ data, (Series.integral T a : Series R).plus (.integral T b)
            = .ok (.integral T data) ∧
          operator_plus (Series.integral T a : Series R) (.integral T b)
            = .ok (.integral T data) ∧
          data.length = a.length ∧
          ∀ i, i < a.length →
            (T.holds (a.getD i 0 + b.getD i 0) →
              data.getD i 0 = a.getD i 0 + b.getD i 0) ∧
            (T = .size_t → data.getD i 0 = (a.getD i 0 + b.getD i 0) % 2 ^ 64)) ∧
      (a.length ≠ b.length →
        (Series.integral T a : Series R).plus (.integral T b) = .error .assertion ∧
        operator_plus (Series.integral T a : Series R) (.integral T b)
          = .error .assertion)) ∧
    (∀ a b : List (Option R),
      (a.length = b.length →
        ∃ data, (Series.floating a).plus (.floating b) = .ok (.floating data) ∧
          operator_plus (Series.floating a) (.floating b) = .ok (.floating data) ∧
          data.length = a.length ∧
          ∀ i, i < a.length →
            (∀ x y : R, a.getD i none = some x → b.getD i none = some y →
              data.getD i none = some (x + y)) ∧
            (a.getD i none = none ∨ b.getD i none = none → data.getD i none = none)) ∧
      (a.length ≠ b.length →
        (Series.floating a).plus (.floating b) = .error .assertion ∧
        operator_plus (Series.floating a) (.floating b) = .error .assertion)) ∧
    Fault.reported .assertion = true := by
  refine ⟨fun T a b => ⟨fun h => ?_, fun h => ?_⟩, fun a b => ⟨fun h => ?_, fun h => ?_⟩, rfl⟩
  · refine ⟨List.zipWith (fun u v => T.wrap (u + v)) a b, ?_, ?_, by simp [h], ?_⟩
    · simp [Series.plus, Series.size, h]
    · simp [operator_plus, Series.plus, Series.size, h]
    · intro i ha
      have hb : i < b.length := h ▸ ha
      have hd : (List.zipWith (fun u v => T.wrap (u + v)) a b).getD i 0
          = T.wrap (a.getD i 0 + b.getD i 0) := by
        simp [List.getD, List.getElem?_zipWith, List.getElem?_eq_getElem ha,
          List.getElem?_eq_getElem hb]
      rw [hd]
      refine ⟨fun hfit => wrap_of_holds T _ hfit, fun hT => ?_⟩
      subst hT
      simp only [IntType.wrap, to_size_t]
      exact Int.toNat_of_nonneg (Int.emod_nonneg _ (by norm_num))
  · simp [operator_plus, Series.plus, Series.size, h]
  · refine ⟨List.zipWith dadd a b, ?_, ?_, by simp [h], ?_⟩
    · simp [Series.plus, Series.size, h]
    · simp [operator_plus, Series.plus, Series.size, h]
    · intro i ha
      have hb : i < b.length := h ▸ ha
      have hd : (List.zipWith dadd a b).getD i none
          = dadd (a.getD i none) (b.getD i none) := by
        simp [List.getD, List.getElem?_zipWith, List.getElem?_eq_getElem ha,
          List.getElem?_eq_getElem hb]
      rw [hd]
      refine ⟨fun x y hx hy => by rw [hx, hy]; rfl, fun hn => ?_⟩
      rcases hn with hn | hn
      · rw [hn]; rfl
      · rw [hn]; cases a.getD i none <;> rfl
  · simp [operator_plus, Series.plus, Series.size, h]

/-- Witness for C16: `[1, 2] + [10, 20]` and `[1, 2] + [10]` on `int` series, the
same on `double` series, and the `int` sum `2147483647 + 1`, which `int` does
not hold. -/
theorem column_add_witness :
    ((Series.integral .int [1, 2] : Series ℚ).plus (.integral .int [10, 20])
        = .ok (.integral .int [11, 22]) ∧
      (Series.floating [some 1, some 2] : Series ℚ).plus (.floating [some 10, some 20])
        = .ok (.floating [some 11, some 22]) ∧
      (Series.floating [some 1, none] : Series ℚ).plus (.floating [some 10, some 20])
        = .ok (.floating [some 11, none]) ∧
      (Series.integral .int [1, 2] : Series ℚ).plus (.integral .int [10])
        = .error .assertion ∧
      (Series.floating [some 1, some 2] : Series ℚ).plus (.floating [some 10])
        = .error .assertion ∧
      ¬ IntType.int.holds (2147483647 + 1) ∧
      (Series.integral .int [2147483647] : Series ℚ).plus (.integral .int [1])
        = .ok (.integral .int [-2147483648])) ∧
    (∃ data, (Series.integral .int [1, 2] : Series ℚ).plus (.integral .int [10, 20])
        = .ok (.integral .int data) ∧
      operator_plus (Series.integral .int [1, 2] : Series ℚ) (.integral .int [10, 20])
        = .ok (.integral .int data) ∧
      data.length = [1, 2].length ∧
      (IntType.int.holds (1 + 10) ∧ data.getD 0 0 = 1 + 10) ∧
      (IntType.int.holds (2 + 20) ∧ data.getD 1 0 = 2 + 20)) ∧
    (∃ data, (Series.floating [some 1, some 2] : Series ℚ).plus (.floating [some 10, some 20])
        = .ok (.floating data) ∧
      operator_plus (Series.floating [some 1, some 2] : Series ℚ)
          (.floating [some 10, some 20]) = .ok (.floating data) ∧
      data.length = [some (1 : ℚ), some 2].length ∧
      data.getD 0 none = some (1 + 10) ∧ data.getD 1 none = some (2 + 20)) := by
  refine ⟨⟨rfl, ?_, ?_, ((column_add (R := ℚ)).1 .int [1, 2] [10]).2 (by decide) |>.1,
    ((column_add (R := ℚ)).2.1 [some 1, some 2] [some 10]).2 (by decide) |>.1,
    by decide, rfl⟩, ?_, ?_⟩
  · norm_num [Series.plus, Series.size, dadd]
  · norm_num [Series.plus, Series.size, dadd]
  · obtain ⟨data, h1, h2, h3, h4⟩ := ((column_add (R := ℚ)).1 .int [1, 2] [10, 20]).1 rfl
    exact ⟨data, h1, h2, h3, ⟨by decide, (h4 0 (by decide)).1 (by decide)⟩,
      ⟨by decide, (h4 1 (by decide)).1 (by decide)⟩⟩
  · obtain ⟨data, h1, h2, h3, h4⟩ :=
      ((column_add (R := ℚ)).2.1 [some 1, some 2] [some 10, some 20]).1 rfl
    exact ⟨data, h1, h2, h3, (h4 0 (by decide)).1 1 10 rfl rfl,
      (h4 1 (by decide)).1 2 20 rfl rfl⟩

section correlation_labels

variable [LinearOrderedField R]

/-- The shape of the result of `DataFrame::corr` on a frame with one name per
column whose columns have one element type and one length: the names are those
of the frame, the index is the empty `std::size_t` series that the constructor
takes by default, there is one column per name, each with one element per
name, and the element at row `i` of column `j` is the correlation of the columns
named `columns[i]` and `columns[j]`. -/
theorem DataFrame.corr_labels (sqrt : R → R) (df : DataFrame R)
    (hlen : df.values.length = df.columns.length)
    (htype : ∀ s ∈ df.values, ∀ t ∈ df.values, s.same_type t = true)
    (hsize : ∀ s ∈ df.values, ∀ t ∈ df.values, s.size = t.size) :
    ∃ out, df.corr sqrt = .ok out ∧ out.columns = df.columns ∧
      out.index = .integral .size_t [] ∧ out.values.length = df.columns.length ∧
      (∀ c ∈ out.values, c.size = df.columns.length) ∧
      ∀ i j (hi : i < df.columns.length) (hj : j < df.columns.length),
        ∃ su sv c, df.subscript df.columns[i] = .ok su ∧ df.subscript df.columns[j] = .ok sv ∧
          su.corr sqrt sv = .ok c ∧ out.cell i j = some (.floating c) := by
  obtain ⟨data, hdata, hF⟩ :=
    corr_outer_loop_ok sqrt df hlen htype hsize df.columns (fun _ h => h)
  have hcorr : df.corr sqrt = .ok ⟨data, .integral .size_t [], df.columns⟩ := by
    simp [DataFrame.corr, hdata]
  obtain ⟨out, hout, hcells⟩ := DataFrame.corr_cells sqrt df hlen htype hsize
  rw [hcorr] at hout
  cases hout
  obtain ⟨hl, hget⟩ := List.forall₂_iff_get.mp hF
  refine ⟨_, hcorr, rfl, rfl, hl.symm, ?_, ?_⟩
  · intro c hc
    obtain ⟨n, hn, rfl⟩ := List.getElem_of_mem hc
    obtain ⟨su, col, _, hs, hFc⟩ := hget n (hl ▸ hn) hn
    simp only [List.get_eq_getElem] at hs
    rw [hs]
    exact hFc.length_eq.symm
  · intro i j hi hj
    obtain ⟨sj, si, c, hsj, hsi, hmj, hmi, hc, hcell⟩ := hcells i j hi hj
    refine ⟨si, sj, c, hsi, hsj, ?_, hcell⟩
    rw [Series.corr_comm sqrt si sj (htype si hmi sj hmj) (hsize si hmi sj hmj)]
    exact hc

/-- C17 (correlation_matrix labels), as amended: on a frame with one name per
column, `k` names, whose columns have one element type and one length,
`DataFrame::corr` returns a frame with the same name list, `k` columns of `k`
elements each, the element at row `u` of column `v` being the correlation of the
columns named `u` and `v`; its index is not the name list but the empty
`std::size_t` series of the constructor's default argument. -/
theorem correlation_matrix_labels (sqrt : R → R) (df : DataFrame R)
    (hlen : df.values.length = df.columns.length)
    (htype : ∀ s ∈ df.values, ∀ t ∈ df.values, s.same_type t = true)
    (hsize : ∀ s ∈ df.values, ∀ t ∈ df.values, s.size = t.size) :
    ∃ out, df.corr sqrt = .ok out ∧ out.columns = df.columns ∧
      out.index = .integral .size_t [] ∧ out.index.size = 0 ∧
      out.values.length = df.columns.length ∧
      (∀ c ∈ out.values, c.size = df.columns.length) ∧
      ∀ i j (hi : i < df.columns.length) (hj : j < df.columns.length),
        ∃ su sv c, df.subscript df.columns[i] = .ok su ∧ df.subscript df.columns[j] = .ok sv ∧
          su.corr sqrt sv = .ok c ∧ out.cell i j = some (.floating c) := by
  obtain ⟨out, hout, hcols, hindex, hk, hsizes, hcells⟩ :=
    DataFrame.corr_labels sqrt df hlen htype hsize
  exact ⟨out, hout, hcols, hindex, by rw [hindex]; rfl, hk, hsizes, hcells⟩

end correlation_labels

/-- Witness for C17 as amended: the frame of two `int` columns of three rows. -/
theorem correlation_matrix_labels_witness :
    ∃ out, xy_frame.corr Rat.sqrt = .ok out ∧ out.columns = xy_frame.columns ∧
      out.index = .integral .size_t [] ∧ out.index.size = 0 ∧
      out.values.length = xy_frame.columns.length ∧
      (∀ c ∈ out.values, c.size = xy_frame.columns.length) ∧
      ∀ i j (hi : i < xy_frame.columns.length) (hj : j < xy_frame.columns.length),
        ∃ su sv c, xy_frame.subscript xy_frame.columns[i] = .ok su ∧
          xy_frame.subscript xy_frame.columns[j] = .ok sv ∧
          su.corr Rat.sqrt sv = .ok c ∧ out.cell i j = some (.floating c) :=
  correlation_matrix_labels Rat.sqrt xy_frame rfl (by decide) (by decide)

/-- C17 as stated fails on the frame of two `int` columns `x`, `y`: the index of
the result of `DataFrame::corr` is the empty `std::size_t` series, with no row,
and not a series of the two names. -/
theorem correlation_matrix_index_empty :
    ∃ out, xy_frame.corr Rat.sqrt = .ok out ∧ out.index = .integral .size_t [] ∧
      out.index.size = 0 ∧ out.index.size ≠ xy_frame.columns.length ∧
      out.values.length = 2 := by
  obtain ⟨out, hout, _, hindex, hk, _, _⟩ :=
    DataFrame.corr_labels Rat.sqrt xy_frame rfl (by decide) (by decide)
  refine ⟨out, hout, hindex, by rw [hindex]; rfl, ?_, hk⟩
  rw [hindex]
  decide

theorem iloc_bool_loop_sublist {α : Type} (ib : List Bool) :
    ∀ (values data : List α), iloc_bool_loop ib values = .ok data → data.Sublist values := by
  induction ib with
  | nil =>
    intro values data h
    simp only [iloc_bool_loop, Except.ok.injEq] at h
    subst h
    exact List.nil_sublist _
  | cons b ib ih =>
    intro values data h
    cases values with
    | nil => simp [iloc_bool_loop] at h
    | cons v values =>
      unfold iloc_bool_loop at h
      cases hr : iloc_bool_loop ib values with
      | error e => simp [hr] at h
      | ok d =>
        simp only [hr, Except.ok.injEq] at h
        subst h
        have hs := ih values d hr
        cases b
        · simpa using hs.cons v
        · simpa using hs.cons₂ v

theorem Series.iloc_bool_sublist (s o : Series R) (ib : List Bool)
    (h : s.iloc_bool ib = .ok o) :
    (∃ T values data, s = .integral T values ∧ o = .integral T data ∧ data.Sublist values) ∨
      (∃ values data, s = .floating values ∧ o = .floating data ∧ data.Sublist values) := by
  cases s with
  | integral T values =>
    left
    simp only [Series.iloc_bool, iloc_bool_values] at h
    split at h
    · cases hr : iloc_bool_loop ib values with
      | error e => simp [hr, Except.map] at h
      | ok d =>
        simp only [hr, Except.map, Except.ok.injEq] at h
        exact ⟨T, values, d, rfl, h.symm, iloc_bool_loop_sublist ib values d hr⟩
    · simp [Except.map] at h
  | floating values =>
    right
    simp only [Series.iloc_bool, iloc_bool_values] at h
    split at h
    · cases hr : iloc_bool_loop ib values with
      | error e => simp [hr, Except.map] at h
      | ok d =>
        simp only [hr, Except.map, Except.ok.injEq] at h
        exact ⟨values, d, rfl, h.symm, iloc_bool_loop_sublist ib values d hr⟩
    · simp [Except.map] at h

theorem DataFrame.iloc_bool_index (df out : DataFrame R) (ib : List Bool)
    (h : df.iloc_bool ib = .ok out) : df.index.iloc_bool ib = .ok out.index := by
  unfold DataFrame.iloc_bool at h
  cases hi : df.index.iloc_bool ib with
  | error e => simp [hi] at h
  | ok index =>
    simp only [hi] at h
    cases hv : for_each_column (fun s => s.iloc_bool ib) df.values with
    | error e => simp [hv] at h
    | ok values =>
      simp only [hv, Except.ok.injEq] at h
      subst h
      rfl

theorem forall₂_mem_right {α β : Type} {P : α → β → Prop} {l1 : List α} {l2 : List β}
    (h : List.Forall₂ P l1 l2) : ∀ b ∈ l2, ∃ a ∈ l1, P a b := by
  induction h with
  | nil => intro b hb; simp at hb
  | cons hab _ ih =>
    intro b hb
    rcases List.mem_cons.mp hb with rfl | hb'
    · exact ⟨_, List.mem_cons_self _ _, hab⟩
    · obtain ⟨a, ha, hP⟩ := ih b hb'
      exact ⟨a, List.mem_cons_of_mem _ ha, hP⟩

section ascending

variable [LinearOrderedField R]

/-- `DataFrame::iloc` on a mask of the length of the index and of every column:
the result has `count true` rows in the index and in every column, its index has
the element type of the frame's index, and it is ascending when the frame's
index is. -/
theorem DataFrame.iloc_bool_has_rows (df : DataFrame R) (ib : List Bool)
    (hindex : df.index.size = ib.length) (hvalues : ∀ s ∈ df.values, s.size = ib.length) :
    ∃ out, df.iloc_bool ib = .ok out ∧ out.columns = df.columns ∧
      out.values.length = df.values.length ∧ out.has_rows (ib.count true) ∧
      out.index.same_type df.index = true ∧ (df.index.ascending → out.index.ascending) := by
  obtain ⟨out, hout, hcols, hi, hF⟩ := DataFrame.iloc_bool_rows df ib hindex hvalues
  refine ⟨out, hout, hcols, hF.length_eq.symm, ⟨hi.1, fun o ho => ?_⟩, ?_, ?_⟩
  · obtain ⟨s, _, hP⟩ := forall₂_mem_right hF o ho
    exact hP.1
  · rcases Series.iloc_bool_sublist _ _ ib (DataFrame.iloc_bool_index df out ib hout) with
      ⟨T, values, data, hs, ho, _⟩ | ⟨values, data, hs, ho, _⟩
    · rw [hs, ho]; simp [Series.same_type]
    · rw [hs, ho]; simp [Series.same_type]
  · intro hasc
    rcases Series.iloc_bool_sublist _ _ ib (DataFrame.iloc_bool_index df out ib hout) with
      ⟨T, values, data, hs, ho, hsub⟩ | ⟨values, data, hs, ho, hsub⟩
    · rw [hs] at hasc
      rw [ho]
      exact List.Pairwise.sublist hsub hasc
    · rw [hs] at hasc
      rw [ho]
      exact List.Pairwise.sublist hsub hasc

end ascending

/-- The position recorded for grid point `j` when the cursor over the source index
stands at `i`: every position below `i` holds a value `<=` the grid point, no
position from `i` on does, and `p` is `i - 1` if that position lies above the
previous grid point and `0` otherwise. -/
theorem is_position_of_cursor (index_ index_t : List Int)
    (hasc : ∀ i i', i ≤ i' → i' < index_.length → index_.getD i 0 ≤ index_.getD i' 0)
    (i j p : Nat) (hi : i ≤ index_.length)
    (h3 : p = if 0 < i ∧ (j = 0 ∨ index_t.getD (j - 1) 0 < index_.getD (i - 1) 0)
      then i - 1 else 0)
    (h6 : ∀ i', i' < i → index_.getD i' 0 ≤ index_t.getD j 0)
    (hrest : ∀ i', i ≤ i' → i' < index_.length → ¬ index_.getD i' 0 ≤ index_t.getD j 0) :
    is_position_of index_ index_t j p := by
  have hlt : ∀ i', in_window index_ index_t j i' → i' < i := by
    intro i' hw
    by_contra hc
    exact hrest i' (not_lt.mp hc) hw.1 hw.2.1
  by_cases hcond : 0 < i ∧ (j = 0 ∨ index_t.getD (j - 1) 0 < index_.getD (i - 1) 0)
  · rw [if_pos hcond] at h3
    subst h3
    have hw : in_window index_ index_t j (i - 1) :=
      ⟨by omega, h6 (i - 1) (by omega), hcond.2⟩
    refine ⟨fun _ => ⟨hw, fun i' hi' => ?_⟩, fun hno => absurd ⟨i - 1, hw⟩ hno⟩
    have := hlt i' hi'
    omega
  · rw [if_neg hcond] at h3
    subst h3
    refine ⟨fun ⟨i', hw⟩ => ?_, fun _ => rfl⟩
    exfalso
    have hi' := hlt i' hw
    apply hcond
    refine ⟨by omega, ?_⟩
    rcases hw.2.2 with h0 | h0
    · exact Or.inl h0
    · exact Or.inr (lt_of_lt_of_le h0 (hasc i' (i - 1) (by omega) (by omega)))

theorem getD_set_ne (s : List Nat) (j j' v : Nat) (h : j ≠ j') :
    (s.set j v).getD j' 0 = s.getD j' 0 := by
  simp [List.getD_eq_getElem?_getD, List.getElem?_set_ne h]

theorem getD_set_eq (s : List Nat) (j v : Nat) (h : j < s.length) :
    (s.set j v).getD j 0 = v := by
  simp [List.getD_eq_getElem?_getD, List.getElem?_set_self h]

/-- Invariant of the merge loop of `DataFrame::resample` for ascending source
index and grid: started with the cursor at `i`, the grid point `j`, the recorded
position of `j` as `is_position_of_cursor` describes it and zeros after `j`, the
loop returns within `(size(index_) - i) + (size(index_t) - j)` executions of its
body, leaves the positions before `j` as they are, and records for every grid
point from `j` on the last position of its window, or `0` for an empty window. -/
theorem resample_merge_loop_inv (index_ index_t : List Int)
    (hasc : ∀ i i', i ≤ i' → i' < index_.length → index_.getD i 0 ≤ index_.getD i' 0)
    (gasc : ∀ j j', j ≤ j' → j' < index_t.length → index_t.getD j 0 ≤ index_t.getD j' 0) :
    ∀ (fuel i j : Nat) (s : List Nat),
      (index_.length - i) + (index_t.length - j) ≤ fuel → i ≤ index_.length →
      s.length = index_t.length →
      (j < index_t.length → s.getD j 0
        = if 0 < i ∧ (j = 0 ∨ index_t.getD (j - 1) 0 < index_.getD (i - 1) 0)
          then i - 1 else 0) →
      (∀ j', j < j' → s.getD j' 0 = 0) →
      (∀ i', i ≤ i' → i' < index_.length →
        (j = 0 ∨ index_t.getD (j - 1) 0 < index_.getD i' 0)) →
      (j < index_t.length → ∀ i', i' < i → index_.getD i' 0 ≤ index_t.getD j 0) →
      ∃ s', resample_merge_loop index_ index_t fuel i j j s = .ok s' ∧
        s'.length = index_t.length ∧
        (∀ j', j' < j → s'.getD j' 0 = s.getD j' 0) ∧
        (∀ j', j ≤ j' → j' < index_t.length →
          is_position_of index_ index_t j' (s'.getD j' 0)) := by
  intro fuel
  induction fuel with
  | zero =>
    intro i j s hf hi hs h3 h4 _ h6
    have hg : ¬ (i < index_.length ∧ j < index_t.length ∧ j < s.length) := by omega
    refine ⟨s, by unfold resample_merge_loop; simp [hg], hs, fun _ _ => rfl, ?_⟩
    intro j' hj hj'
    omega
  | succ fuel ih =>
    intro i j s hf hi hs h3 h4 h5 h6
    by_cases hg : i < index_.length ∧ j < index_t.length ∧ j < s.length
    · obtain ⟨hin, hjm, hjs⟩ := hg
      have hai : index_.getD i 0 = index_[i] := by
        simp [List.getD, List.getElem?_eq_getElem hin]
      have hgj : index_t.getD j 0 = index_t[j] := by
        simp [List.getD, List.getElem?_eq_getElem hjm]
      by_cases hle : index_[i] ≤ index_t[j]
      · obtain ⟨s', hs', hl', hkeep, hspec⟩ := ih (i + 1) j (s.set j i) (by omega) (by omega)
          (by simpa using hs)
          (fun _ => by
            have hc : 0 < i + 1 ∧
                (j = 0 ∨ index_t.getD (j - 1) 0 < index_.getD (i + 1 - 1) 0) :=
              ⟨by omega, by simpa using h5 i (le_refl _) hin⟩
            rw [if_pos hc, getD_set_eq s j i hjs]
            omega)
          (fun j' hj' => by
            rw [getD_set_ne s j j' i (by omega)]
            exact h4 j' hj')
          (fun i' hi' hn => h5 i' (by omega) hn)
          (fun hj i' hi' => by
            rcases Nat.lt_succ_iff_lt_or_eq.mp hi' with h | h
            · exact h6 hj i' h
            · rw [h, hai, hgj]; exact hle)
        refine ⟨s', ?_, hl', fun j' hj' => ?_, hspec⟩
        · unfold resample_merge_loop
          simp [hin, hjm, hjs, List.getElem?_eq_getElem, hle, hs']
        · rw [hkeep j' hj', getD_set_ne s j j' i (by omega)]
      · have hgt : index_t.getD j 0 < index_.getD i 0 := by
          rw [hai, hgj]; exact not_le.mp hle
        obtain ⟨s', hs', hl', hkeep, hspec⟩ := ih i (j + 1) s (by omega) hi hs
          (fun _ => by
            rw [h4 (j + 1) (by omega)]
            have hc : ¬ (0 < i ∧ (j + 1 = 0 ∨
                index_t.getD (j + 1 - 1) 0 < index_.getD (i - 1) 0)) := by
              rintro ⟨hpos, h0 | h0⟩
              · omega
              · have := h6 hjm (i - 1) (by omega)
                simp only [Nat.add_sub_cancel] at h0
                exact absurd h0 (not_lt.mpr this)
            rw [if_neg hc])
          (fun j' hj' => h4 j' (by omega))
          (fun i' hi' hn => Or.inr (by
            simp only [Nat.add_sub_cancel]
            exact lt_of_lt_of_le hgt (hasc i i' hi' hn)))
          (fun hj i' hi' => le_trans (h6 hjm i' hi') (gasc j (j + 1) (by omega) hj))
        refine ⟨s', ?_, hl', fun j' hj' => hkeep j' (by omega), fun j' hj hj' => ?_⟩
        · unfold resample_merge_loop
          simp [hin, hjm, hjs, List.getElem?_eq_getElem, hle, hs']
        · rcases Nat.eq_or_lt_of_le hj with h | h
          · subst h
            rw [hkeep j (by omega)]
            exact is_position_of_cursor index_ index_t hasc i j _ hi (h3 hjm) (h6 hjm)
              (fun i' hi' hn => not_le.mpr (lt_of_lt_of_le hgt (hasc i i' hi' hn)))
          · exact hspec j' (by omega) hj'
    · refine ⟨s, by unfold resample_merge_loop; simp [hg], hs, fun _ _ => rfl, ?_⟩
      intro j' hj hj'
      have hin : i = index_.length := by omega
      have hjm : j < index_t.length := by omega
      rcases Nat.eq_or_lt_of_le hj with h | h
      · subst h
        exact is_position_of_cursor index_ index_t hasc i j _ hi (h3 hjm) (h6 hjm)
          (fun i' hi' hn => by omega)
      · rw [h4 j' h]
        refine ⟨fun ⟨i', hw⟩ => ?_, fun _ => rfl⟩
        exfalso
        rcases hw.2.2 with h0 | h0
        · omega
        · have h1 := h6 hjm i' (by have := hw.1; omega)
          have h2 := gasc j (j' - 1) (by omega) (by omega)
          exact absurd h0 (not_lt.mpr (le_trans h1 h2))

theorem getD_mono_of_pairwise (l : List Int) (h : l.Pairwise (· ≤ ·)) :
    ∀ i i', i ≤ i' → i' < l.length → l.getD i 0 ≤ l.getD i' 0 := by
  intro i i' hle hi'
  have hi : i < l.length := by omega
  rw [List.getD_eq_getElem _ _ hi, List.getD_eq_getElem _ _ hi']
  rcases Nat.eq_or_lt_of_le hle with rfl | hlt
  · exact le_refl _
  · exact List.pairwise_iff_getElem.mp h i i' hi hi' hlt

theorem resample_grid_pairwise (start stop delta : Int) (hdelta : 0 < delta) :
    (resample_grid start stop delta).Pairwise (· ≤ ·) :=
  (resample_grid_mem start stop delta hdelta).2.imp fun h => le_of_lt h

/-- `DataFrame::resample` for `delta > 0` on a frame whose index has element type
`T`, when `T` holds `stop - start`, `start + delta` and every value that
`t += delta` computes, the capacity request is accepted and the fuel covers the
grid loop: the call is the merge loop on the index and the grid, followed by
`iloc` on the positions and the replacement of the index by the grid. -/
theorem DataFrame.resample_unfold (T : IntType) (idx : List Int)
    (df : DataFrame R) (start stop delta : Int) (hindex : df.index = .integral T idx)
    (hdelta : 0 < delta) (hfits : resample_fits T start stop delta)
    (hlow : start - delta < stop)
    (hhigh : (stop - start) / delta ≤ vector_max_size T.sizeof) (fuel : Nat)
    (hfuel : (resample_grid start stop delta).length < fuel) :
    df.resample fuel T start stop delta
      = match resample_merge_loop idx (resample_grid start stop delta) fuel 0 0 0
            (List.replicate (resample_grid start stop delta).length 0) with
        | .error e => .error e
        | .ok index_s =>
          match df.iloc index_s with
          | .error e => .error e
          | .ok out => .ok { out with index := .integral T (resample_grid start stop delta) } := by
  have hgrid := resample_grid_loop_spec T start stop delta hdelta fuel
    (by simpa [resample_grid] using hfuel)
    (fun k hk => hfits.2 k (by simpa [resample_grid] using hk))
  have hres := resample_reserve_ok T start stop delta hdelta hfits.1 hlow hhigh
  unfold DataFrame.resample
  rw [if_neg (not_div_faults_of_pos T _ delta hdelta), if_neg hres, hgrid]
  simp only [hindex, Series.dynamic_pointer_cast, if_true, resample_grid]

/-- `DataFrame::iloc` on positions below the row count of a frame whose index and
columns have `n` elements: the result has one row per position in the index and
in every column. -/
theorem DataFrame.iloc_has_rows (df : DataFrame R) (n : Nat) (hrows : df.has_rows n)
    (is : List Nat) (hpos : ∀ i ∈ is, i < n) :
    ∃ out, df.iloc is = .ok out ∧ out.columns = df.columns ∧
      out.values.length = df.values.length ∧ out.has_rows is.length := by
  obtain ⟨out, hout, hcols, hi, hF⟩ := DataFrame.iloc_rows df is
    (fun i hi => by rw [hrows.1]; exact hpos i hi)
    (fun s hs => by rw [hrows.2 s hs, hrows.1])
  refine ⟨out, hout, hcols, hF.length_eq.symm, hi.1, fun o ho => ?_⟩
  obtain ⟨s, _, hP⟩ := forall₂_mem_right hF o ho
  exact hP.1

/-- The merge loop of `DataFrame::resample` on an empty source index returns the
zero-filled positions at once. -/
theorem resample_merge_loop_nil (index_t : List Int) (fuel : Nat) (index_s : List Nat) :
    resample_merge_loop [] index_t fuel 0 0 0 index_s = .ok index_s := by
  unfold resample_merge_loop
  simp

/-- The type `long` holds every value that `resample(0, 8, 2)` computes: the
difference `8` and the values `2, 4, 6, 8, 10` of `t`. -/
theorem resample_fits_example : resample_fits .long 0 8 2 := by
  refine ⟨by decide, fun k hk => ?_⟩
  have hk' : k ≤ 4 := hk
  interval_cases k <;> decide

/-- C18 (resample position map, exactly): for an ascending source index and an
ascending grid, the merge loop of `resample` returns within
`size(index) + size(grid)` executions of its body, and for every grid point
`g_j` the position it records is the last position `i` with
`g_(j-1) < index[i] <= g_j` (no lower bound for `j = 0`) when there is one, and
`0` otherwise. `resample` itself, for `delta > 0` on a non-empty frame with
columns of the index's length, when its element type `T` holds `stop - start`,
`start + delta` and every value that `t += delta` computes, and the capacity
request `(stop - start) / delta` is not negative and not above `max_size()` of
a vector of `T`, computes this grid, gathers the rows at exactly these
positions and puts the grid in the index. -/
theorem resample_position_map (index_ index_t : List Int) (hasc : index_.Pairwise (· ≤ ·))
    (hgrid : index_t.Pairwise (· ≤ ·)) (fuel : Nat)
    (hfuel : index_.length + index_t.length ≤ fuel) :
    ∃ index_s,
      resample_merge_loop index_ index_t fuel 0 0 0 (List.replicate index_t.length 0)
        = .ok index_s ∧
      index_s.length = index_t.length ∧
      (∀ j, j < index_t.length → is_position_of index_ index_t j (index_s.getD j 0)) ∧
      ∀ (T : IntType) (df : DataFrame R) (start stop delta : Int),
        df.index = .integral T index_ → (∀ s ∈ df.values, s.size = index_.length) →
        index_ ≠ [] → 0 < delta → start - delta < stop →
        resample_fits T start stop delta →
        (stop - start) / delta ≤ vector_max_size T.sizeof →
        index_t = resample_grid start stop delta →
        ∃ out, df.iloc index_s = .ok out ∧
          df.resample fuel T start stop delta
            = .ok { out with index := .integral T index_t } := by
  obtain ⟨s, hs, hl, _, hspec⟩ :=
    resample_merge_loop_inv index_ index_t (getD_mono_of_pairwise index_ hasc)
      (getD_mono_of_pairwise index_t hgrid) fuel 0 0 (List.replicate index_t.length 0)
      (by omega) (Nat.zero_le _) (by simp)
      (fun _ => by simp [List.getD_eq_getElem?_getD])
      (fun j' _ => by
        simp only [List.getD_eq_getElem?_getD, List.getElem?_replicate]
        split <;> rfl)
      (fun _ _ _ => Or.inl rfl)
      (fun _ i' hi' => absurd hi' (Nat.not_lt_zero _))
  refine ⟨s, hs, hl, fun j hj => hspec j (Nat.zero_le _) hj, ?_⟩
  intro T df start stop delta hindex hvalues hrows hdelta hlow hfits hhigh hg
  obtain ⟨s', hs', _, hmem⟩ :=
    resample_merge_loop_ok index_ index_t fuel 0 0 0 (List.replicate index_t.length 0)
      (by omega)
  rw [hs] at hs'
  cases hs'
  have hpos : 0 < index_.length := List.length_pos.mpr hrows
  obtain ⟨out, hout, _⟩ := DataFrame.iloc_has_rows df index_.length
    ⟨by rw [hindex]; rfl, hvalues⟩ s
    (fun i hi => by
      rcases hmem i hi with h | h
      · rw [List.eq_of_mem_replicate h]; exact hpos
      · exact h)
  refine ⟨out, hout, ?_⟩
  subst hg
  rw [DataFrame.resample_unfold T index_ df start stop delta hindex hdelta hfits hlow hhigh fuel
    (by omega), hs]
  simp only [hout]

/-- Witness for C18: the frame with the `long` index `[1, 2, 7]` and the column
`[10, 20, 70]`, and `resample(0, 8, 2)`, whose grid is `[2, 4, 6, 8]`; the
positions are `[1, 0, 0, 2]`. -/
theorem resample_position_map_witness :
    resample_merge_loop [1, 2, 7] [2, 4, 6, 8] 7 0 0 0 (List.replicate 4 0)
        = .ok [1, 0, 0, 2] ∧
      gap_frame.resample 7 .long 0 8 2
        = .ok ⟨[.integral .int [20, 10, 10, 70]], .integral .long [2, 4, 6, 8], ["price"]⟩ ∧
      ∃ index_s,
        resample_merge_loop [1, 2, 7] [2, 4, 6, 8] 7 0 0 0
            (List.replicate [2, 4, 6, 8].length 0) = .ok index_s ∧
        index_s.length = [2, 4, 6, 8].length ∧
        (∀ j, j < [2, 4, 6, 8].length →
          is_position_of [1, 2, 7] [2, 4, 6, 8] j (index_s.getD j 0)) ∧
        ∃ out, gap_frame.iloc index_s = .ok out ∧
          gap_frame.resample 7 .long 0 8 2
            = .ok { out with index := .integral .long [2, 4, 6, 8] } := by
  obtain ⟨index_s, h1, h2, h3, h4⟩ :=
    resample_position_map (R := ℚ) [1, 2, 7] [2, 4, 6, 8] (by decide) (by decide) 7 (by decide)
  exact ⟨rfl, rfl, index_s, h1, h2, h3,
    h4 .long gap_frame 0 8 2 rfl (by simp [gap_frame, Series.size]) (by decide) (by decide)
      (by decide) resample_fits_example (by decide) rfl⟩

/-- C19 (resample stays in bounds): the merge loop of `resample` returns within
`size(index) + size(grid)` executions of its body, with one position per grid
point. When the source index is not empty every position is below its size,
and `iloc` on the positions returns on every frame of that many rows, so no
element outside a column is read. When the source index is empty and the grid
is not, every position is `0`, none is below the row count, and `iloc` on them
reads outside the index. `resample` itself, for `delta > 0`, when its element
type `T` holds `stop - start`, `start + delta` and every value that `t += delta`
computes, the capacity request `(stop - start) / delta` is not negative and not
above `max_size()` of a vector of `T`, and the fuel also covers the grid loop,
returns in the first case and ends in that read in the second. -/
theorem resample_in_bounds (index_ index_t : List Int) (fuel : Nat)
    (hfuel : index_.length + index_t.length ≤ fuel) :
    ∃ index_s,
      resample_merge_loop index_ index_t fuel 0 0 0 (List.replicate index_t.length 0)
        = .ok index_s ∧
      index_s.length = index_t.length ∧
      (index_ ≠ [] →
        (∀ p ∈ index_s, p < index_.length) ∧
        ∀ df : DataFrame R, df.has_rows index_.length →
          ∃ out, df.iloc index_s = .ok out ∧ out.has_rows index_t.length) ∧
      (index_ = [] → index_t ≠ [] →
        (∀ p ∈ index_s, p = 0) ∧ (∀ p ∈ index_s, ¬ p < index_.length) ∧
        ∀ df : DataFrame R, df.index.size = 0 → df.iloc index_s = .error .out_of_range) ∧
      ∀ (T : IntType) (df : DataFrame R) (start stop delta : Int),
        df.index = .integral T index_ → (∀ s ∈ df.values, s.size = index_.length) →
        0 < delta → start - delta < stop → resample_fits T start stop delta →
        (stop - start) / delta ≤ vector_max_size T.sizeof →
        index_t = resample_grid start stop delta → index_t.length < fuel →
        (index_ ≠ [] → ∃ out, df.resample fuel T start stop delta = .ok out) ∧
        (index_ = [] → index_t ≠ [] →
          df.resample fuel T start stop delta = .error .out_of_range) := by
  obtain ⟨s, hs, hl, hmem⟩ :=
    resample_merge_loop_ok index_ index_t fuel 0 0 0 (List.replicate index_t.length 0)
      (by omega)
  have hl' : s.length = index_t.length := by simpa using hl
  have hin : index_ ≠ [] → ∀ p ∈ s, p < index_.length := by
    intro hne p hp
    rcases hmem p hp with h | h
    · rw [List.eq_of_mem_replicate h]; exact List.length_pos.mpr hne
    · exact h
  have hzero : index_ = [] → ∀ p ∈ s, p = 0 := by
    intro he p hp
    rcases hmem p hp with h | h
    · exact List.eq_of_mem_replicate h
    · rw [he] at h; exact absurd h (Nat.not_lt_zero _)
  have hout : index_ = [] → index_t ≠ [] → ∀ df : DataFrame R, df.index.size = 0 →
      df.iloc s = .error .out_of_range := by
    intro he hne df hsz
    have hs0 : s ≠ [] := by
      intro h0
      rw [h0] at hl'
      exact hne (List.length_eq_zero.mp hl'.symm)
    obtain ⟨p, hp⟩ := List.exists_mem_of_ne_nil s hs0
    simp [DataFrame.iloc, Series.iloc_out_of_range df.index s ⟨p, hp, by omega⟩]
  refine ⟨s, hs, hl', fun hne => ⟨hin hne, fun df hrows => ?_⟩,
    fun he hne => ⟨hzero he, fun p hp => ?_, hout he hne⟩, ?_⟩
  · obtain ⟨out, ho, _, _, hr⟩ := DataFrame.iloc_has_rows df index_.length hrows s (hin hne)
    exact ⟨out, ho, hl' ▸ hr⟩
  · rw [he]; exact Nat.not_lt_zero _
  · intro T df start stop delta hindex hvalues hdelta hlow hfits hhigh hg hgf
    have hun := DataFrame.resample_unfold T index_ df start stop delta hindex hdelta hfits hlow
      hhigh fuel (by rw [← hg]; exact hgf)
    rw [← hg, hs] at hun
    refine ⟨fun hne => ?_, fun he hne => ?_⟩
    · obtain ⟨out, ho, _⟩ := DataFrame.iloc_has_rows df index_.length
        ⟨by rw [hindex]; rfl, hvalues⟩ s (hin hne)
      exact ⟨{ out with index := .integral T index_t }, by rw [hun]; simp only [ho]⟩
    · rw [hun]
      simp only [hout he hne df (by rw [hindex, he]; rfl)]

/-- Witness for C19: the frame with the `long` index `[1, 2, 7]` and
`resample(0, 8, 2)`, whose grid is `[2, 4, 6, 8]`, and the frame without rows
with the same call. -/
theorem resample_in_bounds_witness :
    (resample_merge_loop [1, 2, 7] [2, 4, 6, 8] 7 0 0 0 (List.replicate 4 0)
        = .ok [1, 0, 0, 2] ∧
      gap_frame.iloc [1, 0, 0, 2]
        = .ok ⟨[.integral .int [20, 10, 10, 70]], .integral .long [2, 1, 1, 7], ["price"]⟩ ∧
      resample_merge_loop [] [2, 4, 6, 8] 4 0 0 0 (List.replicate 4 0) = .ok [0, 0, 0, 0] ∧
      empty_frame.iloc [0, 0, 0, 0] = .error .out_of_range ∧
      empty_frame.resample 5 .long 0 8 2 = .error .out_of_range) ∧
    (∃ index_s,
      resample_merge_loop [1, 2, 7] [2, 4, 6, 8] 7 0 0 0
          (List.replicate [2, 4, 6, 8].length 0) = .ok index_s ∧
      index_s.length = [2, 4, 6, 8].length ∧
      (∀ p ∈ index_s, p < ([1, 2, 7] : List Int).length) ∧
      (∃ out, gap_frame.iloc index_s = .ok out ∧ out.has_rows [2, 4, 6, 8].length) ∧
      ∃ out, gap_frame.resample 7 .long 0 8 2 = .ok out) ∧
    (∃ index_s,
      resample_merge_loop [] [2, 4, 6, 8] 5 0 0 0
          (List.replicate [2, 4, 6, 8].length 0) = .ok index_s ∧
      (∀ p ∈ index_s, p = 0) ∧ (∀ p ∈ index_s, ¬ p < ([] : List Int).length) ∧
      empty_frame.iloc index_s = .error .out_of_range ∧
      empty_frame.resample 5 .long 0 8 2 = .error .out_of_range) := by
  obtain ⟨index_s, h1, h2, h3, _, h5⟩ :=
    resample_in_bounds (R := ℚ) [1, 2, 7] [2, 4, 6, 8] 7 (by decide)
  obtain ⟨index_z, z1, _, _, z4, z5⟩ :=
    resample_in_bounds (R := ℚ) [] [2, 4, 6, 8] 5 (by decide)
  have hne : ([2, 4, 6, 8] : List Int) ≠ [] := by decide
  exact ⟨⟨rfl, rfl, rfl, rfl, rfl⟩,
    ⟨index_s, h1, h2, (h3 (by decide)).1,
      (h3 (by decide)).2 gap_frame ⟨rfl, by simp [gap_frame, Series.size]⟩,
      (h5 .long gap_frame 0 8 2 rfl (by simp [gap_frame, Series.size]) (by decide) (by decide)
        resample_fits_example (by decide) rfl (by decide)).1 (by decide)⟩,
    ⟨index_z, z1, (z4 rfl hne).1, (z4 rfl hne).2.1, (z4 rfl hne).2.2 empty_frame rfl,
      (z5 .long empty_frame 0 8 2 rfl (by simp [empty_frame, Series.size]) (by decide) (by decide)
        resample_fits_example (by decide) rfl (by decide)).2 rfl hne⟩⟩

section equal_length

variable [LinearOrderedField R]

/-- The operations that keep the equal-length invariant: on a frame with one name
per column whose index and columns have `n` elements, `iloc` on a mask of length
`n`, `iloc` on positions below `n`, `loc` (index of the element type of the
bounds), `filter` (on a column of the element type of the value) and
`operator[]` on known names return a frame whose index and columns have one
common length; so does `resample` for `delta > 0` on a frame with at least one
row, when its element type holds every value that it computes, the capacity
request is accepted and the fuel is enough. -/
theorem DataFrame.has_rows_preserved (df : DataFrame R) (n : Nat) (hrows : df.has_rows n)
    (hlen : df.values.length = df.columns.length) :
    (∀ ib : List Bool, ib.length = n →
      ∃ out, df.iloc_bool ib = .ok out ∧ out.has_rows (ib.count true)) ∧
    (∀ is : List Nat, (∀ i ∈ is, i < n) →
      ∃ out, df.iloc is = .ok out ∧ out.has_rows is.length) ∧
    (∀ (T : IntType) (idx : List Int) (start stop : Int), df.index = .integral T idx →
      ∃ out k, df.loc T start stop = .ok out ∧ out.has_rows k) ∧
    (∀ (idx : List (Option R)) (start stop : Option R), df.index = .floating idx →
      ∃ out k, df.loc_double start stop = .ok out ∧ out.has_rows k) ∧
    (∀ (T : IntType) (col : String) (c : List Int) (val : Int),
      df.subscript col = .ok (.integral T c) →
      ∃ out k, df.filter T col val = .ok out ∧ out.has_rows k) ∧
    (∀ (col : String) (c : List (Option R)) (val : Option R),
      df.subscript col = .ok (.floating c) →
      ∃ out k, df.filter_double col val = .ok out ∧ out.has_rows k) ∧
    (∀ names : List String, (∀ c ∈ names, c ∈ df.columns) →
      ∃ out, df.subscript_list names = .ok out ∧ out.has_rows n) ∧
    (∀ (T : IntType) (idx : List Int) (start stop delta : Int) (fuel : Nat),
      df.index = .integral T idx → idx ≠ [] → 0 < delta → start - delta < stop →
      resample_fits T start stop delta →
      (stop - start) / delta ≤ vector_max_size T.sizeof →
      idx.length + (resample_grid start stop delta).length < fuel →
      ∃ out, df.resample fuel T start stop delta = .ok out ∧
        out.has_rows (resample_grid start stop delta).length) := by
  have key : ∀ ib : List Bool, ib.length = n →
      ∃ out, df.iloc_bool ib = .ok out ∧ out.has_rows (ib.count true) := by
    intro ib hib
    obtain ⟨out, hout, _, _, hr, _⟩ :=
      DataFrame.iloc_bool_has_rows df ib (by rw [hrows.1, hib])
        (fun s hs => by rw [hrows.2 s hs, hib])
    exact ⟨out, hout, hr⟩
  have hsub : ∀ (col : String) (s : Series R), df.subscript col = .ok s →
      df.values[df.find_column_index col]? = some s ∧ s.size = n := by
    intro col s h
    unfold DataFrame.subscript at h
    cases hv : df.values[df.find_column_index col]? with
    | none => simp [hv] at h
    | some s' =>
      simp only [hv, Except.ok.injEq] at h
      subst h
      exact ⟨rfl, hrows.2 s' (List.getElem?_mem hv)⟩
  refine ⟨key, ?_, ?_, ?_, ?_, ?_, ?_, ?_⟩
  · intro is hpos
    obtain ⟨out, hout, _, _, hr⟩ := DataFrame.iloc_has_rows df n hrows is hpos
    exact ⟨out, hout, hr⟩
  · intro T idx start stop hindex
    have hn : idx.length = n := by rw [← hrows.1, hindex]; rfl
    obtain ⟨out, hout, h⟩ :=
      key (idx.map fun i => decide (start ≤ i) && decide (i < stop)) (by simpa using hn)
    exact ⟨out, _, by simp [DataFrame.loc, hindex, Series.dynamic_pointer_cast, hout], h⟩
  · intro idx start stop hindex
    have hn : idx.length = n := by rw [← hrows.1, hindex]; rfl
    obtain ⟨out, hout, h⟩ :=
      key (idx.map fun i => dle start i && dlt i stop) (by simpa using hn)
    exact ⟨out, _, by simp [DataFrame.loc_double, hindex, hout], h⟩
  · intro T col c val hcol
    obtain ⟨hv, hsz⟩ := hsub col _ hcol
    obtain ⟨out, hout, h⟩ :=
      key (c.map fun v => decide (v = val)) (by simpa [Series.size] using hsz)
    exact ⟨out, _, by simp [DataFrame.filter, hv, Series.dynamic_pointer_cast, hout], h⟩
  · intro col c val hcol
    obtain ⟨hv, hsz⟩ := hsub col _ hcol
    obtain ⟨out, hout, h⟩ :=
      key (c.map fun v => deq v val) (by simpa [Series.size] using hsz)
    exact ⟨out, _, by simp [DataFrame.filter_double, hv, hout], h⟩
  · intro names hnames
    obtain ⟨data, hd, hF⟩ := subscript_loop_ok df hlen names hnames
    refine ⟨⟨data, df.index, names⟩, by simp [DataFrame.subscript_list, hd], hrows.1, ?_⟩
    intro s hs
    obtain ⟨c, _, hP⟩ := forall₂_mem_right hF s hs
    exact hrows.2 s (List.getElem?_mem hP)
  · intro T idx start stop delta fuel hindex hne hdelta hlow hfits hhigh hfuel
    have hn : idx.length = n := by rw [← hrows.1, hindex]; rfl
    obtain ⟨s, hs, hl, hmem⟩ :=
      resample_merge_loop_ok idx (resample_grid start stop delta) fuel 0 0 0
        (List.replicate (resample_grid start stop delta).length 0) (by omega)
    have hl' : s.length = (resample_grid start stop delta).length := by simpa using hl
    obtain ⟨out, hout, _, _, hr⟩ := DataFrame.iloc_has_rows df n hrows s
      (fun i hi => by
        rcases hmem i hi with h | h
        · rw [List.eq_of_mem_replicate h, ← hn]; exact List.length_pos.mpr hne
        · rw [← hn]; exact h)
    refine ⟨{ out with index := .integral T (resample_grid start stop delta) }, ?_, rfl, ?_⟩
    · rw [DataFrame.resample_unfold T idx df start stop delta hindex hdelta hfits hlow hhigh
        fuel (by omega), hs]
      simp only [hout]
    · intro c hc
      rw [← hl']
      exact hr.2 c hc

end equal_length

/-- C12 (equal-length invariant), evaluated for `resample` on the example frame,
whose index and column have four elements: with `start = 100`, `stop = 0`,
`delta = 5` the capacity request `(stop - start) / delta = -20` becomes
`2 ^ 64 - 20` as a `std::size_t`, and `resample` ends in `std::length_error`
whatever the fuel, so it returns no frame at all. -/
theorem resample_returns_no_frame (fuel : Nat) :
    price_frame.has_rows 4 ∧
      to_size_t ((0 - 100 : Int).tdiv 5) = 2 ^ 64 - 20 ∧
      price_frame.resample fuel .long 100 0 5 = .error .length_error ∧
      ¬ ∃ out, price_frame.resample fuel .long 100 0 5 = .ok out := by
  have h : price_frame.resample fuel .long 100 0 5 = .error .length_error := rfl
  refine ⟨⟨rfl, by decide⟩, rfl, h, ?_⟩
  rintro ⟨out, ho⟩
  rw [h] at ho
  cases ho

end pandas
